import Mathlib

/-!
Shallow embedding of the `localcache` DynamoDB caching decorator
(`cache.go` and its key-encoding companion file), together with proofs
about its cache-key derivation, invalidation engine, and operation
semantics.

Modelling conventions:
* Go strings are Lean `String`s; raw byte slices used as string content
  are modelled as `String`, byte slices printed with `fmt.Sprint`
  (the `BS` field) as `List Nat`.
* Go maps are modelled as association lists in iteration order
  (`List (String × _)`); values only read by key use `alookup`.
  Go map iteration order is not deterministic, so two lists that are
  permutations of each other can stand for the same Go map value.
* A Go `panic` is modelled by the `Pan.panicked` constructor (the
  repository contains no `recover`, so a panic kills the process);
  a returned `error` is modelled by `Except.error` / `OpOut.err`.
* The TTL machinery (`Expired`, per-entry durations), hit/miss counters
  and debug logging are purely observational and are not modelled:
  a cached entry is found iff it is present.
* Remote DynamoDB calls are modelled by oracles passed to each
  operation: the value the remote store would answer with.
-/

namespace Localcache

/-- `dynamodb.AttributeValue`: a tagged value.  The Go struct has one
pointer field per tag; the code matches the fields in the order
`B, BS, BOOL, N, S, L, NS, SS, M, NULL` and panics when none is set.
`untagged` models a value none of whose recognized fields is set.
`M` carries its entries in Go map iteration order. -/
inductive AV where
  | B (b : String)
  | BS (bs : List (List Nat))
  | BOOL (b : Bool)
  | N (n : String)
  | S (s : String)
  | L (l : List AV)
  | NS (ns : List String)
  | SS (ss : List String)
  | M (m : List (String × AV))
  | NULL
  | untagged

/-- Result of a computation that may `panic` (Go panic = process crash). -/
inductive Pan (α : Type) where
  | ok (a : α)
  | panicked (msg : String)
deriving DecidableEq

/-- Sequential composition of two builder writes: string output is
concatenated, the first panic aborts. -/
def pcat : Pan String → Pan String → Pan String
  | .panicked m, _ => .panicked m
  | .ok _, .panicked m => .panicked m
  | .ok s, .ok t => .ok (s ++ t)

/-- Association-list lookup, modelling a Go map read `m[k]`. -/
def alookup {α : Type} (k : String) : List (String × α) → Option α
  | [] => none
  | (k', v) :: rest => if k' = k then some v else alookup k rest

/-- `fmt.Sprint` of a `[]byte`: decimal bytes between brackets. -/
def sprintBytes (bs : List Nat) : String :=
  "[" ++ String.intercalate " " (bs.map toString) ++ "]"

/-- `fmt.Sprint` of a `[][]byte`. -/
def sprintBS (bss : List (List Nat)) : String :=
  "[" ++ String.intercalate " " (bss.map sprintBytes) ++ "]"

/-- `"NS:"`/`"SS:"` style member list: every member followed by `,`. -/
def catComma (ss : List String) : String :=
  String.join (ss.map (fun s => s ++ ","))

mutual
/-- `writeAV` (key-encoding file, lines 129–178): encode one attribute
value into the builder.  Note the `BOOL` case writes `"true"` and then
unconditionally `"false"`; the default case panics. -/
def writeAV : AV → Pan String
  | .B b => .ok b
  | .BS bs => .ok (sprintBS bs)
  | .BOOL b => .ok ((if b then "true" else "") ++ "false")
  | .N n => .ok n
  | .S s => .ok s
  | .L l => pcat (.ok "L:") (writeAVList l)
  | .NS ns => .ok ("NS:" ++ catComma ns)
  | .SS ss => .ok ("SS:" ++ catComma ss)
  | .M m => pcat (.ok "M:") (writeAVPairs m)
  | .NULL => .ok "NULL"
  | .untagged => .panicked "unsupported av"

/-- The `L` loop of `writeAV`: each member encoded and followed by `,`. -/
def writeAVList : List AV → Pan String
  | [] => .ok ""
  | a :: rest => pcat (pcat (writeAV a) (.ok ",")) (writeAVList rest)

/-- The `M` loop of `writeAV`: `k=`, the value, `,` — in iteration order. -/
def writeAVPairs : List (String × AV) → Pan String
  | [] => .ok ""
  | (k, v) :: rest =>
      pcat (pcat (pcat (.ok (k ++ "=")) (writeAV v)) (.ok ",")) (writeAVPairs rest)
end

/-- `writeAV` applied to a possibly-nil `*AttributeValue`.  On `nil` the
Go code writes `"<nil>"` but then dereferences the nil pointer in the
`switch`, i.e. it panics. -/
def writeAVOpt : Option AV → Pan String
  | none => .panicked "nil AttributeValue"
  | some av => writeAV av

/-- `av2str`: run `writeAV` on a fresh builder. -/
def av2str (av : AV) : Pan String := writeAV av

/-- `tableHashKey` (key-encoding file, lines 12–24): table name, then
`&` and the encoded hash value when one is given, then `#` and the
index name when nonempty.  This is the query-cache *group* key. -/
def tableHashKey (table : String) (hk : Option AV) (idx : String) : Pan String :=
  pcat
    (match hk with
     | none => .ok table
     | some av => pcat (.ok (table ++ "&")) (writeAV av))
    (.ok (if idx = "" then "" else "#" ++ idx))

/-- A table's (or index's) key schema: the Go code only ever reads
`schema[0].AttributeName`, `schema[1].AttributeName` and `len(schema)`;
DynamoDB key schemas have one or two elements, so we model them as a
hash attribute plus an optional range attribute
(`len(schema) == 1` ↔ `rangeAttr = none`). -/
structure KeySchema where
  hashAttr : String
  rangeAttr : Option String
deriving DecidableEq

/-- A DynamoDB item (or primary key): a Go map from attribute name to
value, modelled as an association list. -/
abbrev Item := List (String × AV)

/-- `writeItemKey` (lines 32–44): `table$hash:value[/range:value]`. -/
def writeItemKey (table : String) (key : Item) (schema : KeySchema) : Pan String :=
  let p1 := pcat (.ok (table ++ "$" ++ schema.hashAttr ++ ":"))
                 (writeAVOpt (alookup schema.hashAttr key))
  match schema.rangeAttr with
  | none => p1
  | some r => pcat p1 (pcat (.ok ("/" ++ r ++ ":")) (writeAVOpt (alookup r key)))

/-- `itemKey` (lines 26–30). -/
def itemKey (table : String) (key : Item) (schema : KeySchema) : Pan String :=
  writeItemKey table key schema

/-- `dynamodb.Condition`: a comparison operator plus operand values. -/
structure Condition where
  comparisonOperator : String
  attributeValueList : List AV

/-- Non-first operands of `writeCond`: each prefixed by `~` (the Go loop
writes the separator whenever `i > 0`). -/
def writeCondValsRest : List AV → Pan String
  | [] => .ok ""
  | av :: rest => pcat (pcat (.ok "~") (writeAV av)) (writeCondValsRest rest)

/-- The operand loop of `writeCond`: values separated by `~`. -/
def writeCondVals : List AV → Pan String
  | [] => .ok ""
  | av :: rest => pcat (writeAV av) (writeCondValsRest rest)

/-- `writeCond` (lines 112–121): operator, a space, then the operands
separated by `~`.  The Go caller passes `input.KeyConditions[attr]`,
which is nil when the attribute has no condition; writing a nil
condition dereferences a nil pointer, i.e. panics. -/
def writeCond : Option Condition → Pan String
  | none => .panicked "nil Condition"
  | some c => pcat (.ok (c.comparisonOperator ++ " ")) (writeCondVals c.attributeValueList)

/-- One step of `strings.Replacer`: at the current position, the
earliest-listed nonempty pattern that matches wins; otherwise the
character is copied.  (All placeholder patterns in this program are
nonempty; empty patterns are treated as non-matching.) -/
def replRun (pairs : List (List Char × String)) (cs : List Char) : String :=
  match cs with
  | [] => ""
  | c :: rest =>
    match h : pairs.find? (fun p => !p.1.isEmpty && p.1.isPrefixOf (c :: rest)) with
    | some pr => pr.2 ++ replRun pairs ((c :: rest).drop pr.1.length)
    | none => String.singleton c ++ replRun pairs rest
termination_by cs.length
decreasing_by
  · have hp := List.find?_some h
    simp only [Bool.and_eq_true, Bool.not_eq_true'] at hp
    have hne : pr.1 ≠ [] := by
      intro hnil
      rw [hnil] at hp
      simp [List.isEmpty] at hp
    have hlen : 1 ≤ pr.1.length := by
      cases pr1 : pr.1 with
      | nil => exact absurd pr1 hne
      | cons x xs => simp [pr1]
    simp only [List.length_drop, List.length_cons]
    omega
  · simp

/-- Resolve the replacement pairs coming from the
`ExpressionAttributeValues` map: each value is encoded with `av2str`
(which may panic) while the pair list is built. -/
def resolveVals : List (String × AV) → Pan (List (String × String))
  | [] => .ok []
  | (k, v) :: rest =>
      match av2str v with
      | .panicked m => .panicked m
      | .ok s =>
        match resolveVals rest with
        | .panicked m => .panicked m
        | .ok tail => .ok ((k, s) :: tail)

/-- `writeExpr` (lines 180–190): substitute expression-attribute names
and values into the expression with a `strings.Replacer` built from the
two maps in iteration order (names first, then values). -/
def writeExpr (exp : String) (names : List (String × String))
    (vals : List (String × AV)) : Pan String :=
  match resolveVals vals with
  | .panicked m => .panicked m
  | .ok vpairs =>
      .ok (replRun ((names ++ vpairs).map (fun p => (p.1.data, p.2))) exp.data)

/-- `dynamodb.QueryInput`, restricted to the fields the code reads.
Map-typed fields are association lists in iteration order. -/
structure QueryInput where
  tableName : String
  indexName : Option String
  select : Option String
  scanIndexForward : Option Bool
  keyConditions : List (String × Condition)
  exclusiveStartKey : Item
  filterExpression : Option String
  exprAttrNames : List (String × String)
  exprAttrValues : List (String × AV)
  limit : Option Int

/-- `dynamodb.ScanInput`, restricted to the fields the code reads. -/
structure ScanInput where
  tableName : String
  indexName : Option String
  select : Option String
  exclusiveStartKey : Item
  filterExpression : Option String
  exprAttrNames : List (String × String)
  exprAttrValues : List (String × AV)
  limit : Option Int

/-- `queryKey` (lines 46–85): the full request-shape key for the query
cache.  Note `schema[1]` is read whenever the request has more than one
key condition; on a single-element schema that Go slice access panics. -/
def queryKey (input : QueryInput) (schema : KeySchema) : Pan String :=
  let sel := match input.select with
    | some s => s
    | none => "*"
  let dir := match input.scanIndexForward with
    | some false => ".b "
    | _ => ".f "
  let idxPart := match input.indexName with
    | some n => n ++ "#"
    | none => ""
  let base := pcat (.ok (sel ++ dir ++ idxPart ++ schema.hashAttr ++ "\x60"))
                   (writeCond (alookup schema.hashAttr input.keyConditions))
  let withRange :=
    if input.keyConditions.length > 1 then
      match schema.rangeAttr with
      | none => Pan.panicked "index out of range"
      | some r =>
          pcat base (pcat (.ok ("&" ++ r ++ "\x60"))
                          (writeCond (alookup r input.keyConditions)))
    else base
  let withStart :=
    if input.exclusiveStartKey.length > 0 then
      pcat withRange (pcat (.ok "@")
        (writeItemKey input.tableName input.exclusiveStartKey schema))
    else withRange
  let withFilter := match input.filterExpression with
    | some f => pcat withStart (pcat (.ok "?")
        (writeExpr f input.exprAttrNames input.exprAttrValues))
    | none => withStart
  match input.limit with
  | some n => pcat withFilter (.ok ("|" ++ toString n))
  | none => withFilter

/-- `scanKey` (lines 87–110). -/
def scanKey (input : ScanInput) (schema : KeySchema) : Pan String :=
  let sel := match input.select with
    | some s => s
    | none => "*"
  let idxPart := match input.indexName with
    | some n => n ++ "#"
    | none => ""
  let base := Pan.ok (sel ++ idxPart)
  let withStart :=
    if input.exclusiveStartKey.length > 0 then
      pcat base (pcat (.ok "@")
        (writeItemKey input.tableName input.exclusiveStartKey schema))
    else base
  let withFilter := match input.filterExpression with
    | some f => pcat withStart (pcat (.ok "?")
        (writeExpr f input.exprAttrNames input.exprAttrValues))
    | none => withStart
  match input.limit with
  | some n => pcat withFilter (.ok ("|" ++ toString n))
  | none => withFilter

/-- The per-entry comparison inside `keyEqLoose` (lines 199–230): only
`S`, `B` and `N` payloads are compared; an entry whose value carries any
other tag matches anything. -/
def avLooseEq (v other : AV) : Bool :=
  match v with
  | .S s => match other with
    | .S t => s = t
    | _ => false
  | .B b => match other with
    | .B c => b = c
    | _ => false
  | .N n => match other with
    | .N m => n = m
    | _ => false
  | _ => true

/-- `keyEqLoose`: every entry of `a` is present in `b` with a loosely
equal value. -/
def keyEqLoose (a b : Item) : Bool :=
  a.all (fun p =>
    match alookup p.1 b with
    | none => false
    | some other => avLooseEq p.2 other)

/-- `keyEq` (lines 192–197): `keyEqLoose` plus equal sizes. -/
def keyEq (a b : Item) : Bool :=
  a.length = b.length && keyEqLoose a b

/-- A secondary index from `DescribeTableOutput`: its name and key
schema. -/
structure IndexDesc where
  indexName : String
  keySchema : KeySchema
deriving DecidableEq

/-- The slice of `DescribeTableOutput` the code reads: the table's key
schema and its secondary indexes. -/
structure TableDesc where
  keySchema : KeySchema
  globalSecondaryIndexes : List IndexDesc
  localSecondaryIndexes : List IndexDesc
deriving DecidableEq

/-- An opaque `*dynamodb.QueryOutput` stored in the query cache. -/
structure QOut where
  payload : Nat
deriving DecidableEq

/-- An opaque `*dynamodb.ScanOutput` stored in the scan cache. -/
structure SOut where
  payload : Nat
deriving DecidableEq

/-- A value stored in the item cache: either the `none` sentinel
(`var none = &struct{}{}`, cache.go line 79) or an item pointer, which
may itself be the nil map (`setItem(key, out.Item)` on a missing
item). -/
inductive CVal where
  | sentinel
  | itm (i : Option Item)

/-- The decorator's mutable cache stores (`Cache`, cache.go lines
40–54).  `ccache` stores are modelled as partial maps; the layered
query/scan caches as maps from group key and request key. -/
structure CacheState where
  items : String → Option CVal
  tableDesc : String → Option TableDesc
  queries : String → String → Option QOut
  scans : String → String → Option SOut
  allowed : List String

/-- `Allow` (cache.go lines 63–65). -/
def allowOp (c : CacheState) (table : String) : CacheState :=
  { c with allowed := c.allowed ++ [table] }

/-- `isAllowed` (cache.go lines 67–73): with an empty allow-list every
table is allowed; otherwise only listed tables. -/
def isAllowed (c : CacheState) (table : String) : Bool :=
  if c.allowed.isEmpty then true else c.allowed.contains table

/-- `PurgeAll` (cache.go lines 56–61). -/
def purgeAll (c : CacheState) : CacheState :=
  { items := fun _ => none, tableDesc := fun _ => none,
    queries := fun _ _ => none, scans := fun _ _ => none,
    allowed := c.allowed }

/-- `setItem` (cache.go lines 93–95). -/
def setItem (key : String) (v : CVal) (c : CacheState) : CacheState :=
  { c with items := fun k => if k = key then some v else c.items k }

/-- `deleteItem` (cache.go lines 97–99). -/
def deleteItem (key : String) (c : CacheState) : CacheState :=
  { c with items := fun k => if k = key then none else c.items k }

/-- `queries.Set` (cache.go lines 109–111). -/
def setQuery (g key : String) (v : QOut) (c : CacheState) : CacheState :=
  { c with queries := fun g' k =>
      if g' = g ∧ k = key then some v else c.queries g' k }

/-- `scans.Set` (cache.go lines 121–123). -/
def setScan (g key : String) (v : SOut) (c : CacheState) : CacheState :=
  { c with scans := fun g' k =>
      if g' = g ∧ k = key then some v else c.scans g' k }

/-- `queries.DeleteAll(g)`: drop the whole query group `g`. -/
def delQueryGroup (g : String) (c : CacheState) : CacheState :=
  { c with queries := fun g' k => if g' = g then none else c.queries g' k }

/-- `scans.DeleteAll(g)`: drop the whole scan group `g`. -/
def delScanGroup (g : String) (c : CacheState) : CacheState :=
  { c with scans := fun g' k => if g' = g then none else c.scans g' k }

/-- `desc` (cache.go lines 606–618): memoized `DescribeTable`.  The
`describe` oracle is the remote answer; a fetched description is cached
before being returned. -/
def descOp (c : CacheState) (describe : String → Except String TableDesc)
    (table : String) : Except String (TableDesc × CacheState) :=
  match c.tableDesc table with
  | some d => .ok (d, c)
  | none =>
    match describe table with
    | .error e => .error e
    | .ok d =>
      let c' := { c with tableDesc := fun t => if t = table then some d else c.tableDesc t }
      .ok (d, c')

/-- `schemaOf` (cache.go lines 578–584). -/
def schemaOf (c : CacheState) (describe : String → Except String TableDesc)
    (table : String) : Except String (KeySchema × CacheState) :=
  match descOp c describe table with
  | .error e => .error e
  | .ok (d, c') => .ok (d.keySchema, c')

/-- Outcome of an internal step that can return an error or panic. -/
inductive Step (α : Type) where
  | ok (a : α)
  | err (e : String)
  | panicked (m : String)

/-- `schemaOfIndex` (cache.go lines 586–604): search the global then the
local indexes; a metadata-fetch failure is returned, but a missing index
name panics. -/
def schemaOfIndex (c : CacheState) (describe : String → Except String TableDesc)
    (table index : String) : Step (KeySchema × CacheState) :=
  match descOp c describe table with
  | .error e => .err e
  | .ok (d, c') =>
    match d.globalSecondaryIndexes.find? (fun gsi => gsi.indexName = index) with
    | some gsi => .ok (gsi.keySchema, c')
    | none =>
      match d.localSecondaryIndexes.find? (fun lsi => lsi.indexName = index) with
      | some lsi => .ok (lsi.keySchema, c')
      | none => .panicked ("index not found: " ++ table ++ " " ++ index)

/-- The base-table purge key of `invalidate` (cache.go line 134):
`tableHashKey(table, item[hashAttr], "")`. -/
def invalidateBaseKey (table : String) (desc : TableDesc) (item : Item) : Pan String :=
  tableHashKey table (alookup desc.keySchema.hashAttr item) ""

/-- The purge key of one global secondary index in `invalidate`
(cache.go lines 138–148): the whole index group for a single-element
index schema, the hash-scoped group when the item carries the index's
hash attribute, nothing otherwise. -/
def gsiPurgeKey (table : String) (item : Item) (gsi : IndexDesc) : Option (Pan String) :=
  match gsi.keySchema.rangeAttr with
  | none => some (tableHashKey table none gsi.indexName)
  | some _ =>
    match alookup gsi.keySchema.hashAttr item with
    | some hk => some (tableHashKey table (some hk) gsi.indexName)
    | none => none

/-- The purge key of one local secondary index in `invalidate`
(cache.go lines 149–155): the hash-scoped group when the item carries
the index's hash attribute. -/
def lsiPurgeKey (table : String) (item : Item) (lsi : IndexDesc) : Option (Pan String) :=
  match alookup lsi.keySchema.hashAttr item with
  | some hk => some (tableHashKey table (some hk) lsi.indexName)
  | none => none

/-- The global-secondary-index loop of `invalidate`. -/
def gsiLoop (table : String) (item : Item) :
    List IndexDesc → CacheState → Pan CacheState
  | [], c => .ok c
  | gsi :: rest, c =>
    match gsiPurgeKey table item gsi with
    | none => gsiLoop table item rest c
    | some (.panicked m) => .panicked m
    | some (.ok key) => gsiLoop table item rest (delQueryGroup key c)

/-- The local-secondary-index loop of `invalidate`. -/
def lsiLoop (table : String) (item : Item) :
    List IndexDesc → CacheState → Pan CacheState
  | [], c => .ok c
  | lsi :: rest, c =>
    match lsiPurgeKey table item lsi with
    | none => lsiLoop table item rest c
    | some (.panicked m) => .panicked m
    | some (.ok key) => lsiLoop table item rest (delQueryGroup key c)

/-- The base-table purge of `invalidate` (cache.go lines 131–137):
drop the whole query group of a hash-only table, otherwise the group
keyed by the item's hash value. -/
def invalidateBase (table : String) (desc : TableDesc) (item : Item)
    (c : CacheState) : Pan CacheState :=
  match desc.keySchema.rangeAttr with
  | none => .ok (delQueryGroup table c)
  | some _ =>
    match invalidateBaseKey table desc item with
    | .panicked m => .panicked m
    | .ok key => .ok (delQueryGroup key c)

/-- `invalidate` (cache.go lines 125–156): always purge the table's scan
group; purge the whole base query group of a hash-only table, otherwise
the group keyed by the item's hash value; then the secondary-index
groups.  A failing metadata fetch panics (line 128). -/
def invalidate (c : CacheState) (describe : String → Except String TableDesc)
    (table : String) (item : Item) : Pan CacheState :=
  match descOp c describe table with
  | .error e => .panicked e
  | .ok (desc, c1) =>
    match invalidateBase table desc item (delScanGroup table c1) with
    | .panicked m => .panicked m
    | .ok c3 =>
      match gsiLoop table item desc.globalSecondaryIndexes c3 with
      | .panicked m => .panicked m
      | .ok c4 => lsiLoop table item desc.localSecondaryIndexes c4

/-- `invalidateRough` (cache.go lines 158–160): an alias for
`invalidate`, used where only the request's key (not a full item) is
available. -/
def invalidateRough (c : CacheState) (describe : String → Except String TableDesc)
    (table : String) (item : Item) : Pan CacheState :=
  invalidate c describe table item

/-- The page callback of `prefetcher.run` (cache.go lines 651–659):
invalidate with every prefetched pre-image. -/
def runInvalidates (describe : String → Except String TableDesc) :
    List (String × Item) → CacheState → Pan CacheState
  | [], c => .ok c
  | (table, item) :: rest, c =>
    match invalidate c describe table item with
    | .panicked m => .panicked m
    | .ok c' => runInvalidates describe rest c'

/-- `prefetcher.run` (cache.go lines 647–661): nothing accumulated means
no remote call; otherwise one strongly-consistent batched read (the
`pref` oracle gives its flattened `(table, item)` responses) followed by
an invalidation per returned pre-image. -/
def prefetchRun (c : CacheState) (describe : String → Except String TableDesc)
    (accum : List (String × Item))
    (pref : Except String (List (String × Item))) : Step CacheState :=
  if accum.isEmpty then .ok c
  else
    match pref with
    | .error e => .err e
    | .ok pairs =>
      match runInvalidates describe pairs c with
      | .panicked m => .panicked m
      | .ok c' => .ok c'

/-- Outcome of one decorator operation: a returned value or error
together with the cache state at return, plus whether the operation's
main remote data call was issued; or a panic. -/
inductive OpOut (α : Type) where
  | ok (a : α) (s : CacheState) (remoteCalled : Bool)
  | err (e : String) (s : CacheState) (remoteCalled : Bool)
  | panicked (m : String)

/-- `GetItemInput`: table plus primary key. -/
structure GetItemInput where
  tableName : String
  key : Item

/-- `GetItemWithContext` (cache.go lines 164–194).  The `remote` oracle
is the item the remote store would answer (`none` = no such item, which
the code stores as the nil item, not as the `none` sentinel). -/
def getItemOp (c : CacheState) (describe : String → Except String TableDesc)
    (input : GetItemInput) (remote : Except String (Option Item)) :
    OpOut (Option Item) :=
  if ¬ isAllowed c input.tableName then
    match remote with
    | .error e => .err e c true
    | .ok r => .ok r c true
  else
    match schemaOf c describe input.tableName with
    | .error e => .err e c false
    | .ok (schema, c1) =>
      match itemKey input.tableName input.key schema with
      | .panicked m => .panicked m
      | .ok key =>
        match c1.items key with
        | some .sentinel => .ok none c1 false
        | some (.itm i) => .ok i c1 false
        | none =>
          match remote with
          | .error e => .err e c1 true
          | .ok r => .ok r (setItem key (.itm r) c1) true

/-- `PutItemInput`: table plus the item to write. -/
structure PutItemInput where
  tableName : String
  item : Item

/-- `PutItemWithContext` (cache.go lines 196–215): on remote success,
cache the written item and invalidate. -/
def putItemOp (c : CacheState) (describe : String → Except String TableDesc)
    (input : PutItemInput) (remote : Except String Unit) : OpOut Unit :=
  if ¬ isAllowed c input.tableName then
    match remote with
    | .error e => .err e c true
    | .ok _ => .ok () c true
  else
    match schemaOf c describe input.tableName with
    | .error e => .err e c false
    | .ok (schema, c1) =>
      match itemKey input.tableName input.item schema with
      | .panicked m => .panicked m
      | .ok key =>
        match remote with
        | .error e => .err e c1 true
        | .ok _ =>
          let c2 := setItem key (.itm (some input.item)) c1
          match invalidate c2 describe input.tableName input.item with
          | .panicked m => .panicked m
          | .ok c3 => .ok () c3 true

/-- `DeleteItemInput`: table plus primary key. -/
structure DeleteItemInput where
  tableName : String
  key : Item

/-- `DeleteItemWithContext` (cache.go lines 217–240): the code forces
`ReturnValues = ALL_OLD`, so the `remote` oracle answers the pre-delete
attributes (`none` when the item did not exist, giving a nil map whose
lookups all fail).  On success the key is cached as the `none` sentinel
and the old image drives invalidation. -/
def deleteItemOp (c : CacheState) (describe : String → Except String TableDesc)
    (input : DeleteItemInput) (remote : Except String (Option Item)) :
    OpOut (Option Item) :=
  if ¬ isAllowed c input.tableName then
    match remote with
    | .error e => .err e c true
    | .ok r => .ok r c true
  else
    match schemaOf c describe input.tableName with
    | .error e => .err e c false
    | .ok (schema, c1) =>
      match remote with
      | .error e => .err e c1 true
      | .ok oldImage =>
        match itemKey input.tableName input.key schema with
        | .panicked m => .panicked m
        | .ok key =>
          let c2 := setItem key .sentinel c1
          match invalidate c2 describe input.tableName (oldImage.getD []) with
          | .panicked m => .panicked m
          | .ok c3 => .ok oldImage c3 true

/-- `UpdateItemInput`: table, key, and the caller's `ReturnValues`. -/
structure UpdateItemInput where
  tableName : String
  key : Item
  returnValues : Option String

/-- The `ReturnValues` rewrite of `UpdateItemWithContext` (cache.go
lines 252–255): a nil or `NONE` value becomes `ALL_NEW`; anything else
is kept. -/
def updateRV (rv0 : Option String) : Option String :=
  if rv0 = none ∨ rv0 = some "NONE" then some "ALL_NEW" else rv0

/-- `UpdateItemWithContext` (cache.go lines 242–281): a nil/NONE
`ReturnValues` is rewritten to `ALL_NEW`; any other explicit value keeps
its meaning and triggers a prefetch.  The `remote` oracle answers
`out.Attributes` (the new image under `ALL_NEW`). -/
def updateItemOp (c : CacheState) (describe : String → Except String TableDesc)
    (input : UpdateItemInput)
    (pref : Except String (List (String × Item)))
    (remote : Except String (Option Item)) : OpOut (Option Item) :=
  if ¬ isAllowed c input.tableName then
    match remote with
    | .error e => .err e c true
    | .ok r => .ok r c true
  else
    match schemaOf c describe input.tableName with
    | .error e => .err e c false
    | .ok (schema, c1) =>
      match (if updateRV input.returnValues ≠ some "ALL_NEW" then
               prefetchRun c1 describe [(input.tableName, input.key)] pref
             else .ok c1) with
      | .err e => .err e c1 false
      | .panicked m => .panicked m
      | .ok c2 =>
        match remote with
        | .error e => .err e c2 true
        | .ok attrs =>
          match itemKey input.tableName input.key schema with
          | .panicked m => .panicked m
          | .ok key =>
            if updateRV input.returnValues = some "ALL_NEW" then
              match invalidate (setItem key (.itm attrs) c2) describe
                  input.tableName (attrs.getD []) with
              | .panicked m => .panicked m
              | .ok c4 => .ok attrs c4 true
            else
              match invalidateRough (deleteItem key c2) describe
                  input.tableName input.key with
              | .panicked m => .panicked m
              | .ok c4 => .ok attrs c4 true

/-- `BatchGetItemInput.RequestItems`: table → requested keys. -/
structure BatchGetInput where
  requestItems : List (String × List Item)

/-- The remote answer to a batch get: per-table returned items and
per-table unprocessed keys. -/
structure BatchGetRemote where
  responses : List (String × List Item)
  unprocessedKeys : List (String × List Item)

/-- A batch-get response as the decorator returns it: per-table item
lists.  `none` entries are nil item maps (appended when a key cached by
a point read of a missing item is served from the cache). -/
structure BatchGetOut where
  responses : List (String × List (Option Item))
  unprocessedKeys : List (String × List Item)

/-- Append `xs` to the entry of `t` (creating it), modelling
`m[t] = append(m[t], xs...)` on a Go map of slices. -/
def updAppend {α : Type} (l : List (String × List α)) (t : String) (xs : List α) :
    List (String × List α) :=
  if (alookup t l).isSome then
    l.map (fun p => if p.1 = t then (p.1, p.2 ++ xs) else p)
  else l ++ [(t, xs)]

/-- Phase 1 of `BatchGetItemWithContext` for one table's keys: split
into cached hits (sentinels dropped, plain cached items — possibly the
nil item — collected) and misses. -/
def batchGetScan (c : CacheState) (table : String) (schema : KeySchema) :
    List Item → Pan (List (Option Item) × List Item)
  | [] => .ok ([], [])
  | k :: rest =>
    match itemKey table k schema with
    | .panicked m => .panicked m
    | .ok key =>
      match batchGetScan c table schema rest with
      | .panicked m => .panicked m
      | .ok (hits, misses) =>
        match c.items key with
        | some .sentinel => .ok (hits, misses)
        | some (.itm i) => .ok (i :: hits, misses)
        | none => .ok (hits, k :: misses)

/-- Phase 1 of `BatchGetItemWithContext` over all request tables:
build the served-from-cache responses and the reduced request. -/
def batchGetPhase1 (c : CacheState) (describe : String → Except String TableDesc) :
    List (String × List Item) →
    Step (List (String × List (Option Item)) × List (String × List Item) × CacheState)
  | [] => .ok ([], [], c)
  | (table, keys) :: rest =>
    match schemaOf c describe table with
    | .error e => .err e
    | .ok (schema, c1) =>
      match batchGetScan c1 table schema keys with
      | .panicked m => .panicked m
      | .ok (hits, misses) =>
        match batchGetPhase1 c1 describe rest with
        | .err e => .err e
        | .panicked m => .panicked m
        | .ok (fake, newReq, c2) =>
          .ok ((if hits.isEmpty then fake else (table, hits) :: fake),
               (if misses.isEmpty then newReq else (table, misses) :: newReq),
               c2)

/-- Cache one table's returned items under their derived keys
(the inner loop of cache.go lines 342–348).  The schema comes from the
(already populated by phase 1) description cache; a missing schema
reproduces the nil-schema dereference of the Go code. -/
def cacheItemList (table : String) : List Item → CacheState → Pan CacheState
  | [], c => .ok c
  | item :: rest, c =>
    match c.tableDesc table with
    | none => .panicked "nil schema"
    | some d =>
      match itemKey table item d.keySchema with
      | .panicked m => .panicked m
      | .ok key => cacheItemList table rest (setItem key (.itm (some item)) c)

/-- Cache every item the remote batch get returned
(cache.go lines 342–348). -/
def batchGetCacheResponses :
    List (String × List Item) → CacheState → Pan CacheState
  | [], c => .ok c
  | (table, items) :: rest, c =>
    match cacheItemList table items c with
    | .panicked m => .panicked m
    | .ok c' => batchGetCacheResponses rest c'

/-- The inner `next:` loop of the negative-caching pass for one table
(cache.go lines 351–368). -/
def cacheEmptyKeys (out : BatchGetRemote) (table : String) :
    List Item → CacheState → Pan CacheState
  | [], c => .ok c
  | k :: rest, c =>
    let got := (alookup table out.responses).getD []
    let unp := (alookup table out.unprocessedKeys).getD []
    if got.any (fun g => keyEqLoose k g) ∨ unp.any (fun uk => keyEq k uk) then
      cacheEmptyKeys out table rest c
    else
      match c.tableDesc table with
      | none => .panicked "nil schema"
      | some d =>
        match itemKey table k d.keySchema with
        | .panicked m => .panicked m
        | .ok key => cacheEmptyKeys out table rest (setItem key .sentinel c)

/-- Negative caching after a batch get (cache.go lines 350–369): every
requested-but-missed key that the remote neither returned
(`keyEqLoose`) nor reported unprocessed (`keyEq`) is cached as the
`none` sentinel. -/
def batchGetCacheEmpties (out : BatchGetRemote) :
    List (String × List Item) → CacheState → Pan CacheState
  | [], c => .ok c
  | (table, keys) :: rest, c =>
    match cacheEmptyKeys out table keys c with
    | .panicked m => .panicked m
    | .ok c' => batchGetCacheEmpties out rest c'

/-- `BatchGetItemWithContext` (cache.go lines 283–379).  Note: the
operation performs no `isAllowed` check.  Cached keys (sentinels and
cached items, including nil items) are served locally; only the misses
go to the remote store; returned items and confirmed-missing keys are
cached; locally served responses are merged into the remote answer. -/
def batchGetOp (c : CacheState) (describe : String → Except String TableDesc)
    (input : BatchGetInput) (remote : Except String BatchGetRemote) :
    OpOut BatchGetOut :=
  match batchGetPhase1 c describe input.requestItems with
  | .err e => .err e c false
  | .panicked m => .panicked m
  | .ok (fake, newReq, c1) =>
    if newReq.isEmpty then .ok ⟨fake, []⟩ c1 false
    else
      match remote with
      | .error e => .err e c1 true
      | .ok out =>
        match batchGetCacheResponses out.responses c1 with
        | .panicked m => .panicked m
        | .ok c2 =>
          match batchGetCacheEmpties out newReq c2 with
          | .panicked m => .panicked m
          | .ok c3 =>
            let lifted := out.responses.map (fun p => (p.1, p.2.map some))
            if fake.isEmpty then
              .ok ⟨lifted, out.unprocessedKeys⟩ c3 true
            else
              .ok ⟨fake.foldl (fun acc p => updAppend acc p.1 p.2) lifted,
                   out.unprocessedKeys⟩ c3 true

/-- One element of `BatchWriteItemInput.RequestItems[table]`. -/
structure WriteReq where
  deleteRequest : Option Item
  putRequest : Option Item

/-- Accumulate the prefetcher keys of a batch write: the key of every
delete request (cache.go lines 383–389). -/
def batchWriteAccum (reqs : List (String × List WriteReq)) : List (String × Item) :=
  reqs.flatMap (fun p => p.2.filterMap (fun r => r.deleteRequest.map (fun k => (p.1, k))))

/-- The post-write loop body of `BatchWriteItemWithContext` for one
table's requests (cache.go lines 404–433): skip sub-operations the
remote reported unprocessed, cache a sentinel and roughly invalidate
for deletes, cache the item and invalidate for puts. -/
def batchWriteApply (describe : String → Except String TableDesc)
    (table : String) (schema : KeySchema) (unp : List WriteReq) :
    List WriteReq → CacheState → Pan CacheState
  | [], c => .ok c
  | req :: rest, c =>
    match req.deleteRequest with
    | some k =>
      if unp.any (fun u => match u.deleteRequest with
          | some uk => keyEq uk k
          | none => false) then
        batchWriteApply describe table schema unp rest c
      else
        match itemKey table k schema with
        | .panicked m => .panicked m
        | .ok key =>
          match invalidateRough (setItem key .sentinel c) describe table k with
          | .panicked m => .panicked m
          | .ok c' => batchWriteApply describe table schema unp rest c'
    | none =>
      match req.putRequest with
      | some item =>
        if unp.any (fun u => match u.putRequest with
            | some ui => keyEq ui item
            | none => false) then
          batchWriteApply describe table schema unp rest c
        else
          match itemKey table item schema with
          | .panicked m => .panicked m
          | .ok key =>
            match invalidate (setItem key (.itm (some item)) c) describe table item with
            | .panicked m => .panicked m
            | .ok c' => batchWriteApply describe table schema unp rest c'
      | none => batchWriteApply describe table schema unp rest c

/-- Outcome of a post-write pass: success or a mid-loop schema error,
both keeping the cache mutations applied so far; or a panic. -/
inductive WOut where
  | ok (c : CacheState)
  | err (e : String) (c : CacheState)
  | panicked (m : String)

/-- The post-write pass over all tables of a batch write
(cache.go lines 398–434).  A schema error mid-loop returns it
(`return out, err`), keeping the mutations already applied. -/
def batchWritePost (describe : String → Except String TableDesc)
    (unprocessed : List (String × List WriteReq)) :
    List (String × List WriteReq) → CacheState → WOut
  | [], c => .ok c
  | (table, reqs) :: rest, c =>
    match schemaOf c describe table with
    | .error e => .err e c
    | .ok (schema, c1) =>
      match batchWriteApply describe table schema
          ((alookup table unprocessed).getD []) reqs c1 with
      | .panicked m => .panicked m
      | .ok c2 => batchWritePost describe unprocessed rest c2

/-- `BatchWriteItemWithContext` (cache.go lines 381–436): prefetch the
pre-images of all deletes, execute the remote write, then apply
caching/invalidation per processed sub-operation.  No `isAllowed`
check. -/
def batchWriteOp (c : CacheState) (describe : String → Except String TableDesc)
    (input : List (String × List WriteReq))
    (pref : Except String (List (String × Item)))
    (remote : Except String (List (String × List WriteReq))) : OpOut Unit :=
  match prefetchRun c describe (batchWriteAccum input) pref with
  | .err e => .err e c false
  | .panicked m => .panicked m
  | .ok c1 =>
    match remote with
    | .error e => .err e c1 true
    | .ok unprocessed =>
      match batchWritePost describe unprocessed input c1 with
      | .err e c2 => .err e c2 true
      | .panicked m => .panicked m
      | .ok c2 => .ok () c2 true

/-- One element of `TransactWriteItemsInput.TransactItems`: at most one
of a put (table, item), a delete (table, key) or an update
(table, key). -/
structure TransactItem where
  put : Option (String × Item)
  delete : Option (String × Item)
  update : Option (String × Item)

/-- Accumulate the prefetcher keys of a transactional write: every
update key and every delete key (cache.go lines 440–447). -/
def transactAccum (items : List TransactItem) : List (String × Item) :=
  items.flatMap (fun it =>
    (it.update.map (fun p => [p])).getD [] ++ (it.delete.map (fun p => [p])).getD [])

/-- The post-write loop of `TransactWriteItemsWithContext`
(cache.go lines 456–486): the `switch` tries `Put`, then `Delete`, then
`Update`.  Puts cache the item and invalidate with it; deletes cache a
sentinel and roughly invalidate from the key; updates evict the key and
roughly invalidate from the key.  A schema error returns mid-loop. -/
def transactPost (describe : String → Except String TableDesc) :
    List TransactItem → CacheState → WOut
  | [], c => .ok c
  | req :: rest, c =>
    match req.put with
    | some (table, item) =>
      match schemaOf c describe table with
      | .error e => .err e c
      | .ok (schema, c1) =>
        match itemKey table item schema with
        | .panicked m => .panicked m
        | .ok key =>
          match invalidate (setItem key (.itm (some item)) c1) describe table item with
          | .panicked m => .panicked m
          | .ok c2 => transactPost describe rest c2
    | none =>
      match req.delete with
      | some (table, k) =>
        match schemaOf c describe table with
        | .error e => .err e c
        | .ok (schema, c1) =>
          match itemKey table k schema with
          | .panicked m => .panicked m
          | .ok key =>
            match invalidateRough (setItem key .sentinel c1) describe table k with
            | .panicked m => .panicked m
            | .ok c2 => transactPost describe rest c2
      | none =>
        match req.update with
        | some (table, k) =>
          match schemaOf c describe table with
          | .error e => .err e c
          | .ok (schema, c1) =>
            match itemKey table k schema with
            | .panicked m => .panicked m
            | .ok key =>
              match invalidateRough (deleteItem key c1) describe table k with
              | .panicked m => .panicked m
              | .ok c2 => transactPost describe rest c2
        | none => transactPost describe rest c

/-- `TransactWriteItemsWithContext` (cache.go lines 438–488): prefetch
the pre-images of all updates and deletes, execute the remote
transaction, then apply per-sub-operation caching/invalidation.  No
`isAllowed` check, and no unprocessed-item handling (transactions are
all-or-nothing). -/
def transactWriteOp (c : CacheState) (describe : String → Except String TableDesc)
    (input : List TransactItem)
    (pref : Except String (List (String × Item)))
    (remote : Except String Unit) : OpOut Unit :=
  match prefetchRun c describe (transactAccum input) pref with
  | .err e => .err e c false
  | .panicked m => .panicked m
  | .ok c1 =>
    match remote with
    | .error e => .err e c1 true
    | .ok _ =>
      match transactPost describe input c1 with
      | .err e c2 => .err e c2 true
      | .panicked m => .panicked m
      | .ok c2 => .ok () c2 true

/-- The group key a query is cached under (cache.go lines 508–513): the
bare table/index group for a single-element schema, otherwise the group
scoped by the first operand of the hash attribute's key condition.  A
missing condition dereferences nil; an empty operand list indexes out
of range. -/
def queryTkey (input : QueryInput) (schema : KeySchema) (idx : String) : Pan String :=
  match schema.rangeAttr with
  | none => tableHashKey input.tableName none idx
  | some _ =>
    match alookup schema.hashAttr input.keyConditions with
    | none => .panicked "nil Condition"
    | some cond =>
      match cond.attributeValueList with
      | [] => .panicked "index out of range"
      | av :: _ => tableHashKey input.tableName (some av) idx

/-- `QueryWithContext` (cache.go lines 490–528): gate on `isAllowed`;
resolve the (index) schema; derive the group and request keys; serve a
cached result, otherwise query the remote store and cache its answer. -/
def queryOp (c : CacheState) (describe : String → Except String TableDesc)
    (input : QueryInput) (remote : Except String QOut) : OpOut QOut :=
  if ¬ isAllowed c input.tableName then
    match remote with
    | .error e => .err e c true
    | .ok r => .ok r c true
  else
    let schemaStep : Step (KeySchema × CacheState × String) :=
      match input.indexName with
      | none =>
        match schemaOf c describe input.tableName with
        | .error e => .err e
        | .ok (schema, c1) => .ok (schema, c1, "")
      | some idx =>
        match schemaOfIndex c describe input.tableName idx with
        | .err e => .err e
        | .panicked m => .panicked m
        | .ok (schema, c1) => .ok (schema, c1, idx)
    match schemaStep with
    | .err e => .err e c false
    | .panicked m => .panicked m
    | .ok (schema, c1, idx) =>
      match queryTkey input schema idx with
      | .panicked m => .panicked m
      | .ok tkey =>
        match queryKey input schema with
        | .panicked m => .panicked m
        | .ok key =>
          match c1.queries tkey key with
          | some out => .ok out c1 false
          | none =>
            match remote with
            | .error e => .err e c1 true
            | .ok out => .ok out (setQuery tkey key out c1) true

/-- `ScanWithContext` (cache.go lines 530–555): gate on `isAllowed`;
scans are grouped by the bare table name. -/
def scanOp (c : CacheState) (describe : String → Except String TableDesc)
    (input : ScanInput) (remote : Except String SOut) : OpOut SOut :=
  if ¬ isAllowed c input.tableName then
    match remote with
    | .error e => .err e c true
    | .ok r => .ok r c true
  else
    match schemaOf c describe input.tableName with
    | .error e => .err e c false
    | .ok (schema, c1) =>
      match scanKey input schema with
      | .panicked m => .panicked m
      | .ok key =>
        match c1.scans input.tableName key with
        | some out => .ok out c1 false
        | none =>
          match remote with
          | .error e => .err e c1 true
          | .ok out => .ok out (setScan input.tableName key out c1) true

mutual
/-- Two `AV` trees denote the same Go attribute value: identical except
that the entry list of every `M` node — which records one Go map
iteration order — may be permuted.  Encoding "the same value twice"
means encoding two `SameAV`-related trees. -/
inductive SameAV : AV → AV → Prop where
  | b (s) : SameAV (.B s) (.B s)
  | bs (l) : SameAV (.BS l) (.BS l)
  | bool (x) : SameAV (.BOOL x) (.BOOL x)
  | n (s) : SameAV (.N s) (.N s)
  | s (x) : SameAV (.S x) (.S x)
  | l {xs ys} : SameAVList xs ys → SameAV (.L xs) (.L ys)
  | ns (l) : SameAV (.NS l) (.NS l)
  | ss (l) : SameAV (.SS l) (.SS l)
  | m {xs ys zs} : SameAVPairs xs ys → List.Perm ys zs → SameAV (.M xs) (.M zs)
  | null : SameAV .NULL .NULL
  | untagged : SameAV .untagged .untagged

/-- Pointwise `SameAV` on lists. -/
inductive SameAVList : List AV → List AV → Prop where
  | nil : SameAVList [] []
  | cons {x y xs ys} : SameAV x y → SameAVList xs ys → SameAVList (x :: xs) (y :: ys)

/-- Pointwise `SameAV` on map entries (same keys, related values). -/
inductive SameAVPairs : List (String × AV) → List (String × AV) → Prop where
  | nil : SameAVPairs [] []
  | cons {k v w ps qs} : SameAV v w → SameAVPairs ps qs →
      SameAVPairs ((k, v) :: ps) ((k, w) :: qs)
end

mutual
/-- `true` iff the value contains no `M` (map) node. -/
def mapFree : AV → Bool
  | .L l => mapFreeList l
  | .M _ => false
  | _ => true

/-- `mapFree` on every member. -/
def mapFreeList : List AV → Bool
  | [] => true
  | a :: rest => mapFree a && mapFreeList rest
end

/-- `ys` arises from `xs` by relating elements with `R` and permuting:
how one Go map can be observed as two different association lists. -/
def PermRel {α : Type} (R : α → α → Prop) (xs ys : List α) : Prop :=
  ∃ zs, List.Forall₂ R xs zs ∧ zs.Perm ys

/-- Two `Condition` values denoting the same Go condition. -/
def SameCond (c d : Condition) : Prop :=
  c.comparisonOperator = d.comparisonOperator ∧
  List.Forall₂ SameAV c.attributeValueList d.attributeValueList

/-- Two `QueryInput`s denoting the same Go request: all scalar fields
equal, and every map-typed field observed in a possibly different
iteration order (with `SameAV`-related values). -/
def SameQuery (p q : QueryInput) : Prop :=
  p.tableName = q.tableName ∧ p.indexName = q.indexName ∧
  p.select = q.select ∧ p.scanIndexForward = q.scanIndexForward ∧
  PermRel (fun a b => a.1 = b.1 ∧ SameCond a.2 b.2) p.keyConditions q.keyConditions ∧
  PermRel (fun a b => a.1 = b.1 ∧ SameAV a.2 b.2) p.exclusiveStartKey q.exclusiveStartKey ∧
  p.filterExpression = q.filterExpression ∧
  PermRel (fun a b => a = b) p.exprAttrNames q.exprAttrNames ∧
  PermRel (fun a b => a.1 = b.1 ∧ SameAV a.2 b.2) p.exprAttrValues q.exprAttrValues ∧
  p.limit = q.limit

/-- Two `ScanInput`s denoting the same Go request. -/
def SameScan (p q : ScanInput) : Prop :=
  p.tableName = q.tableName ∧ p.indexName = q.indexName ∧
  p.select = q.select ∧
  PermRel (fun a b => a.1 = b.1 ∧ SameAV a.2 b.2) p.exclusiveStartKey q.exclusiveStartKey ∧
  p.filterExpression = q.filterExpression ∧
  PermRel (fun a b => a = b) p.exprAttrNames q.exprAttrNames ∧
  PermRel (fun a b => a.1 = b.1 ∧ SameAV a.2 b.2) p.exprAttrValues q.exprAttrValues ∧
  p.limit = q.limit

/-- The cache right after construction (`NewWithDB`): all stores empty,
no allowed tables. -/
def emptyCache : CacheState :=
  { items := fun _ => none, tableDesc := fun _ => none,
    queries := fun _ _ => none, scans := fun _ _ => none, allowed := [] }

/-- A cache state with one table description memoized. -/
def withDesc (t : String) (d : TableDesc) (c : CacheState) : CacheState :=
  { c with tableDesc := fun s => if s = t then some d else c.tableDesc s }

/-- A describe oracle for runs that must not hit the remote metadata
call. -/
def noDescribe : String → Except String TableDesc :=
  fun _ => .error "describe not expected"

/-- Delete-only data evolution: the item store unchanged and the query
and scan stores only ever lose entries. -/
def dOnly (c s : CacheState) : Prop :=
  s.items = c.items ∧
  (∀ g k, s.queries g k = c.queries g k ∨ s.queries g k = none) ∧
  (∀ g k, s.scans g k = c.scans g k ∨ s.scans g k = none)

/-- Item, query and scan stores untouched (only the schema cache may
have grown). -/
def sameData (c s : CacheState) : Prop :=
  s.items = c.items ∧ s.queries = c.queries ∧ s.scans = c.scans

/-! Concrete fixtures used by the claim theorems and witnesses. -/

/-- A hash-only table `tbl(id)` carrying one two-attribute global
secondary index `idx(g, r)`. -/
def gsiTableDesc : TableDesc := ⟨⟨"id", none⟩, [⟨"idx", ⟨"g", some "r"⟩⟩], []⟩

/-- State with `tbl`'s description memoized and one cached query result
in the `idx`-group scoped to hash value `G2`. -/
def c1State : CacheState :=
  setQuery "tbl&G2#idx" "qk" ⟨9⟩ (withDesc "tbl" gsiTableDesc emptyCache)

/-- The pre-image of the item being updated: its `idx` hash attribute is
`G1`. -/
def c1Pre : Item := [("id", .S "A"), ("g", .S "G1"), ("r", .S "x")]

/-- The transactional update's request key. -/
def c1Key : Item := [("id", .S "A")]

/-- The state after the transactional update of `c1Key`: the prefetch
invalidated with the pre-image (`G1` group), the post-write pass with
the bare key — the `G2` group is never purged. -/
def c1Final : CacheState :=
  delQueryGroup "tbl" (delScanGroup "tbl" (deleteItem "tbl$id:A"
    (delQueryGroup "tbl&G1#idx" (delQueryGroup "tbl" (delScanGroup "tbl" c1State)))))

/-- A plain hash-only table `tbl(id)` with no indexes. -/
def hashOnlyDesc : TableDesc := ⟨⟨"id", none⟩, [], []⟩

/-- A table `tbl(id, rk)` with a two-attribute GSI `idx(g, r)`. -/
def c2TableDesc : TableDesc := ⟨⟨"id", some "rk"⟩, [⟨"idx", ⟨"g", some "r"⟩⟩], []⟩

/-- State for the two-attribute scoping run: description memoized and a
query result cached in the base group scoped to hash value `B`. -/
def c2State : CacheState :=
  setQuery "tbl&B" "qk" ⟨7⟩ (withDesc "tbl" c2TableDesc emptyCache)

/-- The item put into `tbl`: hash value `A`, GSI hash value `G1`. -/
def c2Item : Item := [("id", .S "A"), ("rk", .S "1"), ("g", .S "G1")]

/-- The state after putting `c2Item` into `tbl`. -/
def c2Final : CacheState :=
  delQueryGroup "tbl&G1#idx" (delQueryGroup "tbl&A" (delScanGroup "tbl"
    (setItem "tbl$id:A/rk:1" (CVal.itm (some c2Item)) c2State)))

/-- State for the hash-only scoping run: description memoized and one
cached base query. -/
def c2bState : CacheState :=
  setQuery "tbl" "qk" ⟨3⟩ (withDesc "tbl" hashOnlyDesc emptyCache)

/-- The state after putting `[("id", "a")]` into the hash-only table. -/
def c2bFinal : CacheState :=
  delQueryGroup "tbl" (delScanGroup "tbl"
    (setItem "tbl$id:a" (CVal.itm (some [("id", .S "a")])) c2bState))

/-- A base-table query against `tbl` with hash condition `id = a`. -/
def c2bQuery : QueryInput :=
  ⟨"tbl", none, none, none, [("id", ⟨"EQ", [.S "a"]⟩)], [], none, [], [], none⟩

/-- State for the negative-caching runs: hash-only `tbl`, empty item
cache. -/
def c3State : CacheState := withDesc "tbl" hashOnlyDesc emptyCache

/-- The point read of key `k1`. -/
def c3Read : GetItemInput := ⟨"tbl", [("id", .S "k1")]⟩

/-- `c3State` after the read-miss of the nonexistent `k1`: the nil item
is cached. -/
def c3s1 : CacheState := setItem "tbl$id:k1" (CVal.itm none) c3State

/-- `c3s1` after a successful delete of `k1`: the sentinel is cached
and the groups invalidated. -/
def c3s2 : CacheState :=
  delQueryGroup "tbl" (delScanGroup "tbl" (setItem "tbl$id:k1" CVal.sentinel c3s1))

/-- `c3s2` after a successful put of `k1`: the new item replaces the
sentinel. -/
def c3s4 : CacheState :=
  delQueryGroup "tbl" (delScanGroup "tbl"
    (setItem "tbl$id:k1" (CVal.itm (some [("id", AV.S "k1")])) c3s2))

/-- A state whose allow-list holds `t1` only, with `t2`'s description
memoized. -/
def c7State : CacheState :=
  { withDesc "t2" ⟨⟨"id", none⟩, [], []⟩ emptyCache with allowed := ["t1"] }

/-- The item of the non-allowed table `t2`. -/
def c7Item : Item := [("id", .S "a")]

/-- The state after a batch get of `t2`'s key: the non-allowed table's
item was cached anyway. -/
def c7Final : CacheState := setItem "t2$id:a" (CVal.itm (some c7Item)) c7State

/-- A cache whose allow-list holds only `t1`. -/
def c7bState : CacheState := { emptyCache with allowed := ["t1"] }

/-- State for the failed-update run: hash-only `tbl` memoized, one
cached query result in the base group. -/
def c8State : CacheState :=
  setQuery "tbl" "qk" ⟨7⟩ (withDesc "tbl" hashOnlyDesc emptyCache)

/-- The state at which the failed update returns: the prefetch already
purged the base query group (and the scan group). -/
def c8Mid : CacheState := delQueryGroup "tbl" (delScanGroup "tbl" c8State)

theorem dOnly_refl (c : CacheState) : dOnly c c :=
  ⟨rfl, fun _ _ => .inl rfl, fun _ _ => .inl rfl⟩

theorem dOnly_trans {a b c : CacheState} (h1 : dOnly a b) (h2 : dOnly b c) : dOnly a c := by
  obtain ⟨hi1, hq1, hs1⟩ := h1
  obtain ⟨hi2, hq2, hs2⟩ := h2
  refine ⟨hi2.trans hi1, fun g k => ?_, fun g k => ?_⟩
  · rcases hq2 g k with h | h
    · rw [h]; exact hq1 g k
    · exact .inr h
  · rcases hs2 g k with h | h
    · rw [h]; exact hs1 g k
    · exact .inr h

theorem sameData_dOnly {c s : CacheState} (h : sameData c s) : dOnly c s := by
  obtain ⟨hi, hq, hs⟩ := h
  exact ⟨hi, fun g k => .inl (by rw [hq]), fun g k => .inl (by rw [hs])⟩

theorem dOnly_delQueryGroup (g : String) (c : CacheState) : dOnly c (delQueryGroup g c) := by
  refine ⟨rfl, fun g' k => ?_, fun _ _ => .inl rfl⟩
  by_cases h : g' = g
  · exact .inr (by simp [delQueryGroup, h])
  · exact .inl (by simp [delQueryGroup, h])

theorem dOnly_delScanGroup (g : String) (c : CacheState) : dOnly c (delScanGroup g c) := by
  refine ⟨rfl, fun _ _ => .inl rfl, fun g' k => ?_⟩
  by_cases h : g' = g
  · exact .inr (by simp [delScanGroup, h])
  · exact .inl (by simp [delScanGroup, h])

theorem descOp_ok_sameData {c : CacheState} {d : String → Except String TableDesc}
    {t : String} {dsc : TableDesc} {c' : CacheState}
    (h : descOp c d t = .ok (dsc, c')) : sameData c c' := by
  unfold descOp at h
  split at h
  · simp only [Except.ok.injEq, Prod.mk.injEq] at h
    rw [← h.2]
    exact ⟨rfl, rfl, rfl⟩
  · split at h
    · exact absurd h (by simp)
    · simp only [Except.ok.injEq, Prod.mk.injEq] at h
      rw [← h.2]
      exact ⟨rfl, rfl, rfl⟩

theorem descOp_cached {c : CacheState} {d : String → Except String TableDesc}
    {t : String} {dsc : TableDesc} (h : c.tableDesc t = some dsc) :
    descOp c d t = .ok (dsc, c) := by
  unfold descOp
  rw [h]

theorem schemaOf_ok_sameData {c : CacheState} {d : String → Except String TableDesc}
    {t : String} {ks : KeySchema} {c' : CacheState}
    (h : schemaOf c d t = .ok (ks, c')) : sameData c c' := by
  unfold schemaOf at h
  split at h
  · exact absurd h (by simp)
  · rename_i dsc c'' heq
    simp only [Except.ok.injEq, Prod.mk.injEq] at h
    rw [← h.2]
    exact descOp_ok_sameData heq

theorem schemaOf_cached {c : CacheState} {d : String → Except String TableDesc}
    {t : String} {dsc : TableDesc} (h : c.tableDesc t = some dsc) :
    schemaOf c d t = .ok (dsc.keySchema, c) := by
  unfold schemaOf
  rw [descOp_cached h]

theorem setItem_queries (key : String) (v : CVal) (c : CacheState) :
    (setItem key v c).queries = c.queries := rfl

theorem setItem_scans (key : String) (v : CVal) (c : CacheState) :
    (setItem key v c).scans = c.scans := rfl

theorem setItem_tableDesc (key : String) (v : CVal) (c : CacheState) :
    (setItem key v c).tableDesc = c.tableDesc := rfl

theorem gsiLoop_ok_dOnly {t : String} {i : Item} :
    ∀ {l : List IndexDesc} {c c' : CacheState},
      gsiLoop t i l c = .ok c' → dOnly c c'
  | [], c, c', h => by
      unfold gsiLoop at h
      simp only [Pan.ok.injEq] at h
      rw [← h]
      exact dOnly_refl c
  | gsi :: rest, c, c', h => by
      unfold gsiLoop at h
      split at h
      · exact gsiLoop_ok_dOnly h
      · exact absurd h (by simp)
      · rename_i key _
        exact dOnly_trans (dOnly_delQueryGroup key c) (gsiLoop_ok_dOnly h)

theorem lsiLoop_ok_dOnly {t : String} {i : Item} :
    ∀ {l : List IndexDesc} {c c' : CacheState},
      lsiLoop t i l c = .ok c' → dOnly c c'
  | [], c, c', h => by
      unfold lsiLoop at h
      simp only [Pan.ok.injEq] at h
      rw [← h]
      exact dOnly_refl c
  | lsi :: rest, c, c', h => by
      unfold lsiLoop at h
      split at h
      · exact lsiLoop_ok_dOnly h
      · exact absurd h (by simp)
      · rename_i key _
        exact dOnly_trans (dOnly_delQueryGroup key c) (lsiLoop_ok_dOnly h)

theorem invalidateBase_ok_dOnly {t : String} {dsc : TableDesc} {i : Item}
    {c c' : CacheState} (h : invalidateBase t dsc i c = .ok c') : dOnly c c' := by
  unfold invalidateBase at h
  split at h
  · simp only [Pan.ok.injEq] at h
    rw [← h]
    exact dOnly_delQueryGroup t c
  · split at h
    · exact absurd h (by simp)
    · rename_i key _
      simp only [Pan.ok.injEq] at h
      rw [← h]
      exact dOnly_delQueryGroup key c

theorem invalidate_ok_dOnly {c : CacheState} {d : String → Except String TableDesc}
    {t : String} {i : Item} {c' : CacheState}
    (h : invalidate c d t i = .ok c') : dOnly c c' := by
  unfold invalidate at h
  split at h
  · exact absurd h (by simp)
  · rename_i dsc c1 heq
    have h1 : dOnly c c1 := sameData_dOnly (descOp_ok_sameData heq)
    have h2 : dOnly c1 (delScanGroup t c1) := dOnly_delScanGroup t c1
    split at h
    · exact absurd h (by simp)
    · rename_i c3 hbase
      split at h
      · exact absurd h (by simp)
      · rename_i c4 hg
        exact dOnly_trans h1 (dOnly_trans h2 (dOnly_trans (invalidateBase_ok_dOnly hbase)
          (dOnly_trans (gsiLoop_ok_dOnly hg) (lsiLoop_ok_dOnly h))))

theorem runInvalidates_ok_dOnly {d : String → Except String TableDesc} :
    ∀ {l : List (String × Item)} {c c' : CacheState},
      runInvalidates d l c = .ok c' → dOnly c c'
  | [], c, c', h => by
      unfold runInvalidates at h
      simp only [Pan.ok.injEq] at h
      rw [← h]
      exact dOnly_refl c
  | (t, i) :: rest, c, c', h => by
      unfold runInvalidates at h
      split at h
      · exact absurd h (by simp)
      · rename_i c1 heq
        exact dOnly_trans (invalidate_ok_dOnly heq) (runInvalidates_ok_dOnly h)

theorem prefetchRun_ok_dOnly {c : CacheState} {d : String → Except String TableDesc}
    {accum : List (String × Item)} {pref : Except String (List (String × Item))}
    {c' : CacheState} (h : prefetchRun c d accum pref = .ok c') : dOnly c c' := by
  unfold prefetchRun at h
  split at h
  · simp only [Step.ok.injEq] at h
    rw [← h]
    exact dOnly_refl c
  · split at h
    · exact absurd h (by simp)
    · split at h
      · exact absurd h (by simp)
      · rename_i c1 heq
        simp only [Step.ok.injEq] at h
        rw [← h]
        exact runInvalidates_ok_dOnly heq

theorem dOnly_none {c c' : CacheState} {g k : String} (h : dOnly c c')
    (hn : c.queries g k = none) : c'.queries g k = none := by
  rcases h.2.1 g k with h' | h'
  · rw [h', hn]
  · exact h'

theorem delQueryGroup_queries_same {g g' k : String} {c : CacheState} (h : g' ≠ g) :
    (delQueryGroup g c).queries g' k = c.queries g' k := by
  simp [delQueryGroup, h]

theorem delQueryGroup_queries_none (g k : String) (c : CacheState) :
    (delQueryGroup g c).queries g k = none := by
  simp [delQueryGroup]

theorem delScanGroup_queries (g : String) (c : CacheState) :
    (delScanGroup g c).queries = c.queries := rfl

theorem gsiLoop_pres {t : String} {i : Item} {g k : String} :
    ∀ {l : List IndexDesc} {c c' : CacheState},
      gsiLoop t i l c = .ok c' →
      (∀ gsi ∈ l, gsiPurgeKey t i gsi ≠ some (.ok g)) →
      c'.queries g k = c.queries g k
  | [], c, c', h, _ => by
      unfold gsiLoop at h
      simp only [Pan.ok.injEq] at h
      rw [← h]
  | gsi :: rest, c, c', h, hne => by
      unfold gsiLoop at h
      split at h
      · exact gsiLoop_pres h (fun x hx => hne x (List.mem_cons_of_mem gsi hx))
      · exact absurd h (by simp)
      · rename_i key hkey
        have hkne : key ≠ g := by
          intro hk
          exact hne gsi (List.mem_cons_self gsi rest) (hk ▸ hkey)
        rw [gsiLoop_pres h (fun x hx => hne x (List.mem_cons_of_mem gsi hx))]
        exact delQueryGroup_queries_same (Ne.symm hkne)

theorem lsiLoop_pres {t : String} {i : Item} {g k : String} :
    ∀ {l : List IndexDesc} {c c' : CacheState},
      lsiLoop t i l c = .ok c' →
      (∀ lsi ∈ l, lsiPurgeKey t i lsi ≠ some (.ok g)) →
      c'.queries g k = c.queries g k
  | [], c, c', h, _ => by
      unfold lsiLoop at h
      simp only [Pan.ok.injEq] at h
      rw [← h]
  | lsi :: rest, c, c', h, hne => by
      unfold lsiLoop at h
      split at h
      · exact lsiLoop_pres h (fun x hx => hne x (List.mem_cons_of_mem lsi hx))
      · exact absurd h (by simp)
      · rename_i key hkey
        have hkne : key ≠ g := by
          intro hk
          exact hne lsi (List.mem_cons_self lsi rest) (hk ▸ hkey)
        rw [lsiLoop_pres h (fun x hx => hne x (List.mem_cons_of_mem lsi hx))]
        exact delQueryGroup_queries_same (Ne.symm hkne)

theorem invalidateBase_none {t : String} {dsc : TableDesc} {i : Item}
    (hr : dsc.keySchema.rangeAttr = none) (c : CacheState) :
    invalidateBase t dsc i c = .ok (delQueryGroup t c) := by
  unfold invalidateBase
  simp only [hr]

theorem invalidateBase_some {t : String} {dsc : TableDesc} {i : Item} {r g1 : String}
    (hr : dsc.keySchema.rangeAttr = some r)
    (hkey : invalidateBaseKey t dsc i = .ok g1) (c : CacheState) :
    invalidateBase t dsc i c = .ok (delQueryGroup g1 c) := by
  unfold invalidateBase
  simp only [hr, hkey]

/-- `invalidate` with the description cached, hash-only table. -/
theorem invalidate_cached_one {c : CacheState} {d : String → Except String TableDesc}
    {t : String} {i : Item} {dsc : TableDesc}
    (hdesc : c.tableDesc t = some dsc)
    (hr : dsc.keySchema.rangeAttr = none) :
    invalidate c d t i =
      match gsiLoop t i dsc.globalSecondaryIndexes
          (delQueryGroup t (delScanGroup t c)) with
      | .panicked m => .panicked m
      | .ok c4 => lsiLoop t i dsc.localSecondaryIndexes c4 := by
  unfold invalidate
  rw [descOp_cached hdesc]
  simp only [invalidateBase_none hr]

/-- `invalidate` with the description cached, two-attribute table. -/
theorem invalidate_cached_two {c : CacheState} {d : String → Except String TableDesc}
    {t : String} {i : Item} {dsc : TableDesc} {r g1 : String}
    (hdesc : c.tableDesc t = some dsc)
    (hr : dsc.keySchema.rangeAttr = some r)
    (hkey : invalidateBaseKey t dsc i = .ok g1) :
    invalidate c d t i =
      match gsiLoop t i dsc.globalSecondaryIndexes
          (delQueryGroup g1 (delScanGroup t c)) with
      | .panicked m => .panicked m
      | .ok c4 => lsiLoop t i dsc.localSecondaryIndexes c4 := by
  unfold invalidate
  rw [descOp_cached hdesc]
  simp only [invalidateBase_some hr hkey]

/-- With the description cached, a successful `invalidate` on a
hash-only table empties the table's whole base query group. -/
theorem invalidate_purge_one {c : CacheState} {d : String → Except String TableDesc}
    {t : String} {i : Item} {dsc : TableDesc} {c' : CacheState}
    (hdesc : c.tableDesc t = some dsc)
    (hr : dsc.keySchema.rangeAttr = none)
    (h : invalidate c d t i = .ok c') :
    ∀ k, c'.queries t k = none := by
  intro k
  rw [invalidate_cached_one hdesc hr] at h
  split at h
  · exact absurd h (by simp)
  · rename_i c4 hg
    refine dOnly_none (lsiLoop_ok_dOnly h) ?_
    refine dOnly_none (gsiLoop_ok_dOnly hg) ?_
    exact delQueryGroup_queries_none t k _

/-- With the description cached, a successful `invalidate` on a
two-attribute table empties the base query group keyed by the item's
hash value. -/
theorem invalidate_purge_two {c : CacheState} {d : String → Except String TableDesc}
    {t : String} {i : Item} {dsc : TableDesc} {r g1 : String} {c' : CacheState}
    (hdesc : c.tableDesc t = some dsc)
    (hr : dsc.keySchema.rangeAttr = some r)
    (hkey : invalidateBaseKey t dsc i = .ok g1)
    (h : invalidate c d t i = .ok c') :
    ∀ k, c'.queries g1 k = none := by
  intro k
  rw [invalidate_cached_two hdesc hr hkey] at h
  split at h
  · exact absurd h (by simp)
  · rename_i c4 hg
    refine dOnly_none (lsiLoop_ok_dOnly h) ?_
    refine dOnly_none (gsiLoop_ok_dOnly hg) ?_
    exact delQueryGroup_queries_none g1 k _

/-- With the description cached, a successful `invalidate` on a
two-attribute table leaves any query group other than the item's own
hash group and the secondary-index purge groups untouched. -/
theorem invalidate_pres_two {c : CacheState} {d : String → Except String TableDesc}
    {t : String} {i : Item} {dsc : TableDesc} {r g1 g : String} {c' : CacheState}
    (hdesc : c.tableDesc t = some dsc)
    (hr : dsc.keySchema.rangeAttr = some r)
    (hkey : invalidateBaseKey t dsc i = .ok g1)
    (h : invalidate c d t i = .ok c')
    (hgne : g ≠ g1)
    (hg : ∀ gsi ∈ dsc.globalSecondaryIndexes, gsiPurgeKey t i gsi ≠ some (.ok g))
    (hl : ∀ lsi ∈ dsc.localSecondaryIndexes, lsiPurgeKey t i lsi ≠ some (.ok g)) :
    ∀ k, c'.queries g k = c.queries g k := by
  intro k
  rw [invalidate_cached_two hdesc hr hkey] at h
  split at h
  · exact absurd h (by simp)
  · rename_i c4 hgl
    rw [lsiLoop_pres h hl, gsiLoop_pres hgl hg,
        delQueryGroup_queries_same hgne, delScanGroup_queries]

/-- Any group key produced by `tableHashKey` with a nonempty index name
contains the `#` separator. -/
theorem tableHashKey_hash_mem {t : String} {hk : Option AV} {idx s : String}
    (h : tableHashKey t hk idx = .ok s) (hidx : idx ≠ "") :
    ('#' : Char) ∈ s.data := by
  cases hk with
  | none =>
    simp only [tableHashKey, if_neg hidx, pcat, Pan.ok.injEq] at h
    rw [← h]
    simp [String.data_append]
  | some av =>
    cases hw : writeAV av with
    | panicked m =>
      simp only [tableHashKey, if_neg hidx, hw, pcat] at h
      exact absurd h (by simp)
    | ok w =>
      simp only [tableHashKey, if_neg hidx, hw, pcat, Pan.ok.injEq] at h
      rw [← h]
      simp [String.data_append]

/-- A `gsiPurgeKey` always carries a `#`-marked index suffix: it can
never equal a base-table group key free of `#`. -/
theorem gsiPurgeKey_ne {t : String} {i : Item} {g : String} {gsi : IndexDesc}
    (hname : gsi.indexName ≠ "") (hfree : ('#' : Char) ∉ g.data) :
    gsiPurgeKey t i gsi ≠ some (.ok g) := by
  intro h
  unfold gsiPurgeKey at h
  split at h
  · simp only [Option.some.injEq] at h
    exact hfree (tableHashKey_hash_mem h hname)
  · split at h
    · simp only [Option.some.injEq] at h
      exact hfree (tableHashKey_hash_mem h hname)
    · exact absurd h (by simp)

/-- Same for `lsiPurgeKey`. -/
theorem lsiPurgeKey_ne {t : String} {i : Item} {g : String} {lsi : IndexDesc}
    (hname : lsi.indexName ≠ "") (hfree : ('#' : Char) ∉ g.data) :
    lsiPurgeKey t i lsi ≠ some (.ok g) := by
  intro h
  unfold lsiPurgeKey at h
  split at h
  · simp only [Option.some.injEq] at h
    exact hfree (tableHashKey_hash_mem h hname)
  · exact absurd h (by simp)

/-- `PutItemWithContext` with the table allowed and its description
cached. -/
theorem putItemOp_cached {c : CacheState} {d : String → Except String TableDesc}
    {table : String} {item : Item} {dsc : TableDesc}
    (hdesc : c.tableDesc table = some dsc)
    (hallow : isAllowed c table = true) :
    putItemOp c d ⟨table, item⟩ (.ok ()) =
      match itemKey table item dsc.keySchema with
      | .panicked m => .panicked m
      | .ok key =>
        match invalidate (setItem key (.itm (some item)) c) d table item with
        | .panicked m => .panicked m
        | .ok c3 => .ok () c3 true := by
  unfold putItemOp
  rw [if_neg (by simp [hallow])]
  rw [schemaOf_cached hdesc]

/-- `GetItemWithContext` with the table allowed and its description
cached. -/
theorem getItemOp_cached {c : CacheState} {d : String → Except String TableDesc}
    {table : String} {key : Item} {dsc : TableDesc}
    {remote : Except String (Option Item)}
    (hdesc : c.tableDesc table = some dsc)
    (hallow : isAllowed c table = true) :
    getItemOp c d ⟨table, key⟩ remote =
      match itemKey table key dsc.keySchema with
      | .panicked m => .panicked m
      | .ok k =>
        match c.items k with
        | some .sentinel => .ok none c false
        | some (.itm i) => .ok i c false
        | none =>
          match remote with
          | .error e => .err e c true
          | .ok r => .ok r (setItem k (.itm r) c) true := by
  unfold getItemOp
  rw [if_neg (by simp [hallow])]
  rw [schemaOf_cached hdesc]

/-- `DeleteItemWithContext` with the table allowed, its description
cached, and the remote delete succeeding. -/
theorem deleteItemOp_cached {c : CacheState} {d : String → Except String TableDesc}
    {table : String} {key : Item} {dsc : TableDesc} {old : Option Item}
    (hdesc : c.tableDesc table = some dsc)
    (hallow : isAllowed c table = true) :
    deleteItemOp c d ⟨table, key⟩ (.ok old) =
      match itemKey table key dsc.keySchema with
      | .panicked m => .panicked m
      | .ok k =>
        match invalidate (setItem k .sentinel c) d table (old.getD []) with
        | .panicked m => .panicked m
        | .ok c3 => .ok old c3 true := by
  unfold deleteItemOp
  rw [if_neg (by simp [hallow])]
  rw [schemaOf_cached hdesc]

/-- C4 — the claim states that a value carrying none of the recognized
tags makes the encoder surface an explicit error result rather than
crash, and that no key-derivation path crashes on such a value.  The
code does the opposite: `writeAV`'s default case executes
`panic("unsupported av")` (key-encoding file line 176), and `itemKey`
inherits the crash; there is no error return anywhere on this path.
`Pan.panicked` models the Go panic, which kills the process (the
repository has no `recover`). -/
theorem writeAV_untagged_panics :
    writeAV AV.untagged = Pan.panicked "unsupported av" ∧
    itemKey "t" [("id", AV.untagged)] ⟨"id", none⟩ = Pan.panicked "unsupported av" :=
  ⟨rfl, rfl⟩

/-- C6 — the claim states the encoder emits exactly `"true"` for a true
boolean and `"false"` for a false one.  The `BOOL` case of `writeAV`
(key-encoding file lines 138–142) writes `"true"` and then falls
through — there is no `return`/`else` — and unconditionally appends
`"false"`, so a true boolean encodes as `"truefalse"`. -/
theorem writeAV_bool_truefalse :
    writeAV (AV.BOOL true) = Pan.ok "truefalse" ∧
    writeAV (AV.BOOL true) ≠ Pan.ok "true" ∧
    writeAV (AV.BOOL false) = Pan.ok "false" :=
  ⟨rfl, by decide, rfl⟩

/-- C9 — the claim states a lookup of a nonexistent index name fails
with a NotFound error returned to the caller, and that a failing
metadata fetch inside the invalidation engine propagates.  The code
panics in both places: `schemaOfIndex` ends in
`panic("index not found: ...")` (cache.go line 603) and `invalidate`
panics on a `desc` error (line 128); `QueryWithContext` on an unknown
index therefore crashes instead of returning an error. -/
theorem schemaOfIndex_missing_panics :
    schemaOfIndex (withDesc "tbl" hashOnlyDesc emptyCache) noDescribe "tbl" "nosuch"
      = Step.panicked "index not found: tbl nosuch" ∧
    invalidate emptyCache (fun _ => .error "describe failed") "tbl" [("id", AV.S "a")]
      = Pan.panicked "describe failed" ∧
    queryOp (withDesc "tbl" hashOnlyDesc emptyCache) noDescribe
      ⟨"tbl", some "nosuch", none, none, [], [], none, [], [], none⟩ (.ok ⟨0⟩)
      = OpOut.panicked "index not found: tbl nosuch" :=
  ⟨rfl, rfl, rfl⟩

/-- C1 — the claim states the purge set never under-approximates, in
particular for transactional updates whose invalidation comes from the
request's key plus prefetched pre-images.  Evaluation at the failing
input refutes it: a transactional update of item `id=A` on table
`tbl` with GSI `idx(g, r)` — the update moving `g` from `G1` to `G2` —
prefetches the pre-image (purging the `G1` group) and afterwards
invalidates from the bare key (which lacks `g`), so the cached query
result in group `tbl&G2#idx`, which the update affects (the item now
appears in `idx` partition `G2`), survives untouched.  This matches the
README's known problem: "Query cache for certain kinds of indexes won't
be invalidated properly through certain operations." -/
theorem transactUpdate_underinvalidates :
    transactWriteOp c1State noDescribe [⟨none, none, some ("tbl", c1Key)⟩]
        (.ok [("tbl", c1Pre)]) (.ok ())
      = OpOut.ok () c1Final true
    ∧ c1Final.queries "tbl&G2#idx" "qk" = some ⟨9⟩
    ∧ tableHashKey "tbl" (some (.S "G2")) "idx" = Pan.ok "tbl&G2#idx" :=
  ⟨rfl, rfl, rfl⟩

/-- C3 (counterexample) — the claim states a point-read of a key the
remote reports nonexistent caches *Absent* for that key.  `Absent` is
the code's distinguished sentinel `var none = &struct{}{}` (modelled by
`CVal.sentinel`), but `GetItemWithContext` caches `out.Item` — the nil
item map (`CVal.itm none`) — instead (cache.go line 192): the stored
value is not the sentinel. -/
theorem getItem_missing_caches_nil :
    getItemOp c3State noDescribe c3Read (.ok none)
      = OpOut.ok none (setItem "tbl$id:k1" (CVal.itm none) c3State) true
    ∧ CVal.itm none ≠ CVal.sentinel :=
  ⟨rfl, fun h => nomatch h⟩

/-- C3 (amended) — a point-read of a nonexistent key caches the nil
item (not the sentinel); a subsequent point-read of either negative
form returns "not found" without a remote call; a successful delete
caches the `Absent` sentinel proper; a successful put overwrites the
negative entry with the new item and the next read returns it without a
remote call. -/
theorem negative_caching_behavior :
    (∀ (c : CacheState) (d : String → Except String TableDesc)
       (table : String) (key : Item) (dsc : TableDesc) (ikey : String),
      c.tableDesc table = some dsc → isAllowed c table = true →
      itemKey table key dsc.keySchema = .ok ikey →
      c.items ikey = none →
      getItemOp c d ⟨table, key⟩ (.ok none)
        = .ok none (setItem ikey (.itm none) c) true)
    ∧
    (∀ (c : CacheState) (d : String → Except String TableDesc)
       (table : String) (key : Item) (dsc : TableDesc) (ikey : String)
       (remote : Except String (Option Item)),
      c.tableDesc table = some dsc → isAllowed c table = true →
      itemKey table key dsc.keySchema = .ok ikey →
      c.items ikey = some (.itm none) →
      getItemOp c d ⟨table, key⟩ remote = .ok none c false)
    ∧
    (∀ (c : CacheState) (d : String → Except String TableDesc)
       (table : String) (key : Item) (dsc : TableDesc) (ikey : String)
       (old : Option Item) (c' : CacheState),
      c.tableDesc table = some dsc → isAllowed c table = true →
      itemKey table key dsc.keySchema = .ok ikey →
      deleteItemOp c d ⟨table, key⟩ (.ok old) = .ok old c' true →
      c'.items ikey = some .sentinel)
    ∧
    (∀ (c : CacheState) (d : String → Except String TableDesc)
       (table : String) (key : Item) (dsc : TableDesc) (ikey : String)
       (remote : Except String (Option Item)),
      c.tableDesc table = some dsc → isAllowed c table = true →
      itemKey table key dsc.keySchema = .ok ikey →
      c.items ikey = some .sentinel →
      getItemOp c d ⟨table, key⟩ remote = .ok none c false)
    ∧
    (∀ (c : CacheState) (d : String → Except String TableDesc)
       (table : String) (item : Item) (dsc : TableDesc) (ikey : String)
       (c' : CacheState),
      c.tableDesc table = some dsc → isAllowed c table = true →
      itemKey table item dsc.keySchema = .ok ikey →
      putItemOp c d ⟨table, item⟩ (.ok ()) = .ok () c' true →
      c'.items ikey = some (.itm (some item)))
    ∧
    (∀ (c : CacheState) (d : String → Except String TableDesc)
       (table : String) (key item : Item) (dsc : TableDesc) (ikey : String)
       (remote : Except String (Option Item)),
      c.tableDesc table = some dsc → isAllowed c table = true →
      itemKey table key dsc.keySchema = .ok ikey →
      c.items ikey = some (.itm (some item)) →
      getItemOp c d ⟨table, key⟩ remote = .ok (some item) c false) := by
  refine ⟨?_, ?_, ?_, ?_, ?_, ?_⟩
  · intro c d table key dsc ikey hdesc hallow hik hmiss
    simp only [getItemOp_cached hdesc hallow, hik, hmiss]
  · intro c d table key dsc ikey remote hdesc hallow hik hhit
    simp only [getItemOp_cached hdesc hallow, hik, hhit]
  · intro c d table key dsc ikey old c' hdesc hallow hik hop
    rw [deleteItemOp_cached hdesc hallow] at hop
    simp only [hik] at hop
    split at hop
    · exact absurd hop (by simp)
    · rename_i c3 hinv
      have hitems : c3.items = (setItem ikey .sentinel c).items :=
        (invalidate_ok_dOnly hinv).1
      have hc3 : c3 = c' := by
        simp only [OpOut.ok.injEq] at hop
        exact hop.2.1
      rw [← hc3, hitems]
      simp [setItem]
  · intro c d table key dsc ikey remote hdesc hallow hik hhit
    simp only [getItemOp_cached hdesc hallow, hik, hhit]
  · intro c d table item dsc ikey c' hdesc hallow hik hop
    rw [putItemOp_cached hdesc hallow] at hop
    simp only [hik] at hop
    split at hop
    · exact absurd hop (by simp)
    · rename_i c3 hinv
      have hitems : c3.items = (setItem ikey (.itm (some item)) c).items :=
        (invalidate_ok_dOnly hinv).1
      have hc3 : c3 = c' := by
        simp only [OpOut.ok.injEq] at hop
        exact hop.2.1
      rw [← hc3, hitems]
      simp [setItem]
  · intro c d table key item dsc ikey remote hdesc hallow hik hhit
    simp only [getItemOp_cached hdesc hallow, hik, hhit]

/-- Concrete run of every part of the amended negative-caching
behavior: read-miss of `k1`, read of the cached nil item, delete
caching the sentinel, read of the sentinel, put clearing it, and the
final read returning the new item — all without remote calls on the
cached paths. -/
theorem negative_caching_behavior_witness :
    getItemOp c3State noDescribe c3Read (.ok none) = .ok none c3s1 true
    ∧ getItemOp c3s1 noDescribe c3Read (.error "remote not called")
        = .ok none c3s1 false
    ∧ c3s2.items "tbl$id:k1" = some CVal.sentinel
    ∧ getItemOp c3s2 noDescribe c3Read (.error "remote not called")
        = .ok none c3s2 false
    ∧ c3s4.items "tbl$id:k1" = some (CVal.itm (some [("id", AV.S "k1")]))
    ∧ getItemOp c3s4 noDescribe c3Read (.error "remote not called")
        = .ok (some [("id", AV.S "k1")]) c3s4 false := by
  refine ⟨?_, ?_, ?_, ?_, ?_, ?_⟩
  · exact negative_caching_behavior.1 c3State noDescribe "tbl" [("id", .S "k1")]
      hashOnlyDesc "tbl$id:k1" rfl rfl rfl rfl
  · exact negative_caching_behavior.2.1 c3s1 noDescribe "tbl" [("id", .S "k1")]
      hashOnlyDesc "tbl$id:k1" _ rfl rfl rfl rfl
  · exact negative_caching_behavior.2.2.1 c3s1 noDescribe "tbl" [("id", .S "k1")]
      hashOnlyDesc "tbl$id:k1" (some [("id", .S "k1")]) c3s2 rfl rfl rfl rfl
  · exact negative_caching_behavior.2.2.2.1 c3s2 noDescribe "tbl" [("id", .S "k1")]
      hashOnlyDesc "tbl$id:k1" _ rfl rfl rfl rfl
  · exact negative_caching_behavior.2.2.2.2.1 c3s2 noDescribe "tbl" [("id", AV.S "k1")]
      hashOnlyDesc "tbl$id:k1" c3s4 rfl rfl rfl rfl
  · exact negative_caching_behavior.2.2.2.2.2 c3s4 noDescribe "tbl" [("id", .S "k1")]
      [("id", AV.S "k1")] hashOnlyDesc "tbl$id:k1" _ rfl rfl rfl rfl

/-- C7 (counterexample) — the claim states that once a table has been
allowed, *every* operation, including batched gets, caches only allowed
tables.  `BatchGetItemWithContext` never consults `isAllowed`
(cache.go lines 283–379): with only `t1` allowed, a batch get of a key
of `t2` serves from and writes to the cache — here it caches `t2`'s
returned item. -/
theorem batchGet_ignores_allowlist :
    isAllowed c7State "t2" = false
    ∧ batchGetOp c7State noDescribe ⟨[("t2", [c7Item])]⟩
        (.ok ⟨[("t2", [c7Item])], []⟩)
      = OpOut.ok ⟨[("t2", [some c7Item])], []⟩ c7Final true
    ∧ c7Final.items "t2$id:a" = some (.itm (some c7Item))
    ∧ c7State.items "t2$id:a" = none :=
  ⟨rfl, rfl, rfl, rfl⟩

/-- C7 (amended) — with an empty allow-list every table is allowed, and
the six gated operations (get, put, delete, update, query, scan) pass
non-allowed tables through to the remote store untouched: the remote
answer (value or error) is returned as-is and the cache state is
unchanged.  The batched get, batched write and transactional write
perform no allow-list check at all (see the counterexample). -/
theorem allowlist_gating_behavior :
    (∀ (c : CacheState) (t : String), c.allowed = [] → isAllowed c t = true)
    ∧
    (∀ (c : CacheState) (d : String → Except String TableDesc)
       (i : GetItemInput) (remote : Except String (Option Item)),
      isAllowed c i.tableName = false →
      getItemOp c d i remote = match remote with
        | .error e => .err e c true
        | .ok r => .ok r c true)
    ∧
    (∀ (c : CacheState) (d : String → Except String TableDesc)
       (i : PutItemInput) (remote : Except String Unit),
      isAllowed c i.tableName = false →
      putItemOp c d i remote = match remote with
        | .error e => .err e c true
        | .ok _ => .ok () c true)
    ∧
    (∀ (c : CacheState) (d : String → Except String TableDesc)
       (i : DeleteItemInput) (remote : Except String (Option Item)),
      isAllowed c i.tableName = false →
      deleteItemOp c d i remote = match remote with
        | .error e => .err e c true
        | .ok r => .ok r c true)
    ∧
    (∀ (c : CacheState) (d : String → Except String TableDesc)
       (i : UpdateItemInput) (pref : Except String (List (String × Item)))
       (remote : Except String (Option Item)),
      isAllowed c i.tableName = false →
      updateItemOp c d i pref remote = match remote with
        | .error e => .err e c true
        | .ok r => .ok r c true)
    ∧
    (∀ (c : CacheState) (d : String → Except String TableDesc)
       (i : QueryInput) (remote : Except String QOut),
      isAllowed c i.tableName = false →
      queryOp c d i remote = match remote with
        | .error e => .err e c true
        | .ok r => .ok r c true)
    ∧
    (∀ (c : CacheState) (d : String → Except String TableDesc)
       (i : ScanInput) (remote : Except String SOut),
      isAllowed c i.tableName = false →
      scanOp c d i remote = match remote with
        | .error e => .err e c true
        | .ok r => .ok r c true) := by
  refine ⟨?_, ?_, ?_, ?_, ?_, ?_, ?_⟩
  · intro c t h
    simp [isAllowed, h]
  · intro c d i remote h
    unfold getItemOp
    rw [if_pos (by simp [h])]
  · intro c d i remote h
    unfold putItemOp
    rw [if_pos (by simp [h])]
  · intro c d i remote h
    unfold deleteItemOp
    rw [if_pos (by simp [h])]
  · intro c d i pref remote h
    unfold updateItemOp
    rw [if_pos (by simp [h])]
  · intro c d i remote h
    unfold queryOp
    rw [if_pos (by simp [h])]
  · intro c d i remote h
    unfold scanOp
    rw [if_pos (by simp [h])]

/-- Concrete pass-through runs of all six gated operations against the
non-allowed table `t2`, plus the default-allow fact on a fresh cache. -/
theorem allowlist_gating_behavior_witness :
    isAllowed emptyCache "t" = true
    ∧ getItemOp c7bState noDescribe ⟨"t2", []⟩ (.ok none) = .ok none c7bState true
    ∧ putItemOp c7bState noDescribe ⟨"t2", []⟩ (.ok ()) = .ok () c7bState true
    ∧ deleteItemOp c7bState noDescribe ⟨"t2", []⟩ (.error "boom")
        = .err "boom" c7bState true
    ∧ updateItemOp c7bState noDescribe ⟨"t2", [], none⟩ (.ok []) (.ok none)
        = .ok none c7bState true
    ∧ queryOp c7bState noDescribe ⟨"t2", none, none, none, [], [], none, [], [], none⟩
        (.ok ⟨1⟩) = .ok ⟨1⟩ c7bState true
    ∧ scanOp c7bState noDescribe ⟨"t2", none, none, [], none, [], [], none⟩
        (.ok ⟨2⟩) = .ok ⟨2⟩ c7bState true := by
  refine ⟨?_, ?_, ?_, ?_, ?_, ?_, ?_⟩
  · exact allowlist_gating_behavior.1 emptyCache "t" rfl
  · exact allowlist_gating_behavior.2.1 c7bState noDescribe ⟨"t2", []⟩ (.ok none) rfl
  · exact allowlist_gating_behavior.2.2.1 c7bState noDescribe ⟨"t2", []⟩ (.ok ()) rfl
  · exact allowlist_gating_behavior.2.2.2.1 c7bState noDescribe ⟨"t2", []⟩
      (.error "boom") rfl
  · exact allowlist_gating_behavior.2.2.2.2.1 c7bState noDescribe ⟨"t2", [], none⟩
      (.ok []) (.ok none) rfl
  · exact allowlist_gating_behavior.2.2.2.2.2.1 c7bState noDescribe
      ⟨"t2", none, none, none, [], [], none, [], [], none⟩ (.ok ⟨1⟩) rfl
  · exact allowlist_gating_behavior.2.2.2.2.2.2 c7bState noDescribe
      ⟨"t2", none, none, [], none, [], [], none⟩ (.ok ⟨2⟩) rfl

/-- C8 (counterexample) — the claim states a failing remote call leaves
every cache store exactly as it was before the enclosing operation
began, *including* operations that run a prefetch.  An update with
`ReturnValues = ALL_OLD` prefetches and invalidates before the remote
update runs (cache.go lines 257–263, 647–661): when the update then
fails with `boom`, the error is propagated but the previously cached
query result for `tbl` is already gone. -/
theorem update_failure_keeps_prefetch_purges :
    updateItemOp c8State noDescribe ⟨"tbl", [("id", .S "a")], some "ALL_OLD"⟩
        (.ok [("tbl", [("id", .S "a")])]) (.error "boom")
      = OpOut.err "boom" c8Mid true
    ∧ c8State.queries "tbl" "qk" = some ⟨7⟩
    ∧ c8Mid.queries "tbl" "qk" = none :=
  ⟨rfl, rfl, rfl⟩

/-- C2 — invalidation scoping by hash value.  Hash-only table: a
successful put empties the table's whole base query group, the group
every base-table query of that table is cached under.  Two-attribute
table: a successful put of an item whose hash value encodes to group
`g1` empties exactly that base group and leaves any base group `g2`
scoped to a different hash value untouched (the side conditions —
nonempty index names, no `#` in `g2` — rule out group-key collisions
between a base group and the `#`-marked index groups, which encoding
into one string namespace cannot exclude for adversarial values). -/
theorem invalidation_scoping :
    (∀ (c : CacheState) (d : String → Except String TableDesc)
       (table : String) (dsc : TableDesc) (item : Item) (c' : CacheState),
      c.tableDesc table = some dsc →
      isAllowed c table = true →
      dsc.keySchema.rangeAttr = none →
      putItemOp c d ⟨table, item⟩ (.ok ()) = .ok () c' true →
      (∀ k, c'.queries table k = none) ∧
      (∀ q : QueryInput, q.tableName = table → q.indexName = none →
        queryTkey q dsc.keySchema "" = .ok table))
    ∧
    (∀ (c : CacheState) (d : String → Except String TableDesc)
       (table : String) (dsc : TableDesc) (item : Item) (c' : CacheState)
       (r g1 : String) (h2av : AV) (g2 : String),
      c.tableDesc table = some dsc →
      isAllowed c table = true →
      dsc.keySchema.rangeAttr = some r →
      invalidateBaseKey table dsc item = .ok g1 →
      tableHashKey table (some h2av) "" = .ok g2 →
      g2 ≠ g1 →
      ('#' : Char) ∉ g2.data →
      (∀ gsi ∈ dsc.globalSecondaryIndexes, gsi.indexName ≠ "") →
      (∀ lsi ∈ dsc.localSecondaryIndexes, lsi.indexName ≠ "") →
      putItemOp c d ⟨table, item⟩ (.ok ()) = .ok () c' true →
      (∀ k, c'.queries g1 k = none) ∧
      (∀ k, c'.queries g2 k = c.queries g2 k)) := by
  constructor
  · intro c d table dsc item c' hdesc hallow hr hop
    rw [putItemOp_cached hdesc hallow] at hop
    constructor
    · split at hop
      · exact absurd hop (by simp)
      · rename_i key hik
        split at hop
        · exact absurd hop (by simp)
        · rename_i c3 hinv
          have hc3 : c3 = c' := by
            simp only [OpOut.ok.injEq] at hop
            exact hop.2.1
          subst hc3
          exact invalidate_purge_one (by simpa [setItem] using hdesc) hr hinv
    · intro q hq hqi
      simp [queryTkey, hr, tableHashKey, pcat, hq]
  · intro c d table dsc item c' r g1 h2av g2 hdesc hallow hr hbk hg2 hne hfree hgn hln hop
    rw [putItemOp_cached hdesc hallow] at hop
    split at hop
    · exact absurd hop (by simp)
    · rename_i key hik
      split at hop
      · exact absurd hop (by simp)
      · rename_i c3 hinv
        have hc3 : c3 = c' := by
          simp only [OpOut.ok.injEq] at hop
          exact hop.2.1
        subst hc3
        have hdesc2 : (setItem key (.itm (some item)) c).tableDesc table = some dsc := by
          simpa [setItem] using hdesc
        constructor
        · exact invalidate_purge_two hdesc2 hr hbk hinv
        · intro k
          have := invalidate_pres_two hdesc2 hr hbk hinv hne
            (fun gsi hgsi => gsiPurgeKey_ne (hgn gsi hgsi) hfree)
            (fun lsi hlsi => lsiPurgeKey_ne (hln lsi hlsi) hfree) k
          rw [this]
          rfl

/-- Concrete runs of both halves of the invalidation-scoping claim:
putting into hash-only `tbl` empties the base group (the group the
sample base query is keyed under), and putting `id=A` into the
two-attribute table purges group `tbl&A` while the cached result in
group `tbl&B` survives. -/
theorem invalidation_scoping_witness :
    (putItemOp c2bState noDescribe ⟨"tbl", [("id", .S "a")]⟩ (.ok ())
        = .ok () c2bFinal true
      ∧ c2bFinal.queries "tbl" "qk" = none
      ∧ queryTkey c2bQuery hashOnlyDesc.keySchema "" = .ok "tbl")
    ∧
    (putItemOp c2State noDescribe ⟨"tbl", c2Item⟩ (.ok ()) = .ok () c2Final true
      ∧ c2Final.queries "tbl&A" "qk" = none
      ∧ c2Final.queries "tbl&B" "qk" = c2State.queries "tbl&B" "qk"
      ∧ c2State.queries "tbl&B" "qk" = some ⟨7⟩) := by
  constructor
  · have h := invalidation_scoping.1 c2bState noDescribe "tbl" hashOnlyDesc
      [("id", .S "a")] c2bFinal rfl rfl rfl rfl
    exact ⟨rfl, h.1 "qk", h.2 c2bQuery rfl rfl⟩
  · have h := invalidation_scoping.2 c2State noDescribe "tbl" c2TableDesc
      c2Item c2Final "rk" "tbl&A" (.S "B") "tbl&B" rfl rfl rfl rfl rfl
      (by decide) (by decide) (by decide) (by decide) rfl
    exact ⟨rfl, h.1 "qk", h.2 "qk", rfl⟩

/-- C10 — group-key agreement: the group key `QueryWithContext` caches
a query under and the group key `invalidate` purges for a matching item
are produced by the same `tableHashKey` computation and agree whenever
the query's hash-condition operand equals the item's hash-attribute
value; for the base table, for global secondary indexes, and for local
secondary indexes. -/
theorem group_key_agreement :
    (∀ (table : String) (desc : TableDesc) (item : Item) (v : AV)
       (cond : Condition) (q : QueryInput) (r : String) (rest : List AV),
      q.tableName = table →
      desc.keySchema.rangeAttr = some r →
      alookup desc.keySchema.hashAttr item = some v →
      alookup desc.keySchema.hashAttr q.keyConditions = some cond →
      cond.attributeValueList = v :: rest →
      queryTkey q desc.keySchema "" = invalidateBaseKey table desc item)
    ∧
    (∀ (table : String) (gsi : IndexDesc) (item : Item) (v : AV)
       (cond : Condition) (q : QueryInput) (r : String) (rest : List AV),
      q.tableName = table →
      gsi.keySchema.rangeAttr = some r →
      alookup gsi.keySchema.hashAttr item = some v →
      alookup gsi.keySchema.hashAttr q.keyConditions = some cond →
      cond.attributeValueList = v :: rest →
      gsiPurgeKey table item gsi = some (queryTkey q gsi.keySchema gsi.indexName))
    ∧
    (∀ (table : String) (lsi : IndexDesc) (item : Item) (v : AV)
       (cond : Condition) (q : QueryInput) (r : String) (rest : List AV),
      q.tableName = table →
      lsi.keySchema.rangeAttr = some r →
      alookup lsi.keySchema.hashAttr item = some v →
      alookup lsi.keySchema.hashAttr q.keyConditions = some cond →
      cond.attributeValueList = v :: rest →
      lsiPurgeKey table item lsi = some (queryTkey q lsi.keySchema lsi.indexName)) := by
  refine ⟨?_, ?_, ?_⟩
  · intro table desc item v cond q r rest hq hr hitem hc hcv
    simp [queryTkey, invalidateBaseKey, hr, hitem, hc, hcv, hq]
  · intro table gsi item v cond q r rest hq hr hitem hc hcv
    simp [queryTkey, gsiPurgeKey, hr, hitem, hc, hcv, hq]
  · intro table lsi item v cond q r rest hq hr hitem hc hcv
    simp [queryTkey, lsiPurgeKey, hr, hitem, hc, hcv, hq]

theorem sameData_refl (c : CacheState) : sameData c c := ⟨rfl, rfl, rfl⟩

theorem sameData_trans {a b c : CacheState} (h1 : sameData a b) (h2 : sameData b c) :
    sameData a c :=
  ⟨h2.1.trans h1.1, h2.2.1.trans h1.2.1, h2.2.2.trans h1.2.2⟩

theorem descOp_error_source {c : CacheState} {d : String → Except String TableDesc}
    {t : String} {e : String} (h : descOp c d t = .error e) : d t = .error e := by
  unfold descOp at h
  split at h
  · exact absurd h (by simp)
  · split at h
    · rename_i e2 heq
      simp only [Except.error.injEq] at h
      rw [heq, h]
    · exact absurd h (by simp)

theorem schemaOf_error_source {c : CacheState} {d : String → Except String TableDesc}
    {t : String} {e : String} (h : schemaOf c d t = .error e) : d t = .error e := by
  unfold schemaOf at h
  split at h
  · rename_i e2 heq
    simp only [Except.error.injEq] at h
    exact h ▸ descOp_error_source heq
  · exact absurd h (by simp)

theorem schemaOfIndex_err_source {c : CacheState} {d : String → Except String TableDesc}
    {t idx : String} {e : String} (h : schemaOfIndex c d t idx = .err e) :
    d t = .error e := by
  unfold schemaOfIndex at h
  split at h
  · rename_i e2 heq
    simp only [Step.err.injEq] at h
    exact h ▸ descOp_error_source heq
  · split at h
    · exact absurd h (by simp)
    · split at h
      · exact absurd h (by simp)
      · exact absurd h (by simp)

theorem schemaOfIndex_ok_sameData {c : CacheState} {d : String → Except String TableDesc}
    {t idx : String} {ks : KeySchema} {c' : CacheState}
    (h : schemaOfIndex c d t idx = .ok (ks, c')) : sameData c c' := by
  unfold schemaOfIndex at h
  split at h
  · exact absurd h (by simp)
  · rename_i dsc c'' heq
    split at h
    · simp only [Step.ok.injEq, Prod.mk.injEq] at h
      rw [← h.2]
      exact descOp_ok_sameData heq
    · split at h
      · simp only [Step.ok.injEq, Prod.mk.injEq] at h
        rw [← h.2]
        exact descOp_ok_sameData heq
      · exact absurd h (by simp)

theorem prefetchRun_err_source {c : CacheState} {d : String → Except String TableDesc}
    {accum : List (String × Item)} {pref : Except String (List (String × Item))}
    {e : String} (h : prefetchRun c d accum pref = .err e) : pref = .error e := by
  unfold prefetchRun at h
  split at h
  · exact absurd h (by simp)
  · split at h
    · simp only [Step.err.injEq] at h
      exact congrArg Except.error h
    · split at h
      · exact absurd h (by simp)
      · exact absurd h (by simp)

theorem batchGetPhase1_err_source {c : CacheState} {d : String → Except String TableDesc} :
    ∀ {l : List (String × List Item)} {e : String},
      batchGetPhase1 c d l = .err e → ∃ t, d t = .error e
  | [], e, h => by
      unfold batchGetPhase1 at h
      exact absurd h (by simp)
  | (table, keys) :: rest, e, h => by
      unfold batchGetPhase1 at h
      split at h
      · rename_i e2 heq
        simp only [Step.err.injEq] at h
        exact ⟨table, h ▸ schemaOf_error_source heq⟩
      · rename_i schema c1 heq
        split at h
        · exact absurd h (by simp)
        · split at h
          · rename_i heq2
            simp only [Step.err.injEq] at h
            obtain ⟨t, ht⟩ := batchGetPhase1_err_source (c := c1) (h ▸ heq2)
            exact ⟨t, ht⟩
          · exact absurd h (by simp)
          · exact absurd h (by simp)

theorem batchGetPhase1_ok_sameData {d : String → Except String TableDesc} :
    ∀ {l : List (String × List Item)} {c : CacheState} {fake : List (String × List (Option Item))}
      {newReq : List (String × List Item)} {c' : CacheState},
      batchGetPhase1 c d l = .ok (fake, newReq, c') → sameData c c'
  | [], c, fake, newReq, c', h => by
      unfold batchGetPhase1 at h
      simp only [Step.ok.injEq, Prod.mk.injEq] at h
      rw [← h.2.2]
      exact sameData_refl c
  | (table, keys) :: rest, c, fake, newReq, c', h => by
      unfold batchGetPhase1 at h
      split at h
      · exact absurd h (by simp)
      · rename_i schema c1 heq
        split at h
        · exact absurd h (by simp)
        · split at h
          · exact absurd h (by simp)
          · exact absurd h (by simp)
          · rename_i fake2 newReq2 c2 heq2
            simp only [Step.ok.injEq, Prod.mk.injEq] at h
            rw [← h.2.2]
            exact sameData_trans (schemaOf_ok_sameData heq)
              (batchGetPhase1_ok_sameData heq2)

mutual
/-- A map-free attribute value is rigid: any `SameAV`-related tree is
identical (there is no `M` node whose iteration order could differ). -/
theorem sameAV_eq : ∀ {a b : AV}, mapFree a = true → SameAV a b → a = b
  | _, _, _, .b _ => rfl
  | _, _, _, .bs _ => rfl
  | _, _, _, .bool _ => rfl
  | _, _, _, .n _ => rfl
  | _, _, _, .s _ => rfl
  | _, _, hm, .l h => by
      simp only [mapFree] at hm
      exact congrArg AV.L (sameAVList_eq hm h)
  | _, _, _, .ns _ => rfl
  | _, _, _, .ss _ => rfl
  | _, _, hm, .m _ _ => by
      simp only [mapFree] at hm
      exact absurd hm (by simp)
  | _, _, _, .null => rfl
  | _, _, _, .untagged => rfl

/-- Pointwise version of `sameAV_eq`. -/
theorem sameAVList_eq : ∀ {xs ys : List AV},
    mapFreeList xs = true → SameAVList xs ys → xs = ys
  | _, _, _, .nil => rfl
  | _, _, hm, .cons hx hxs => by
      simp only [mapFreeList, Bool.and_eq_true] at hm
      rw [sameAV_eq hm.1 hx, sameAVList_eq hm.2 hxs]
end

theorem forall₂_eq_of {α : Type} {R : α → α → Prop} :
    ∀ {xs zs : List α}, List.Forall₂ R xs zs →
      (∀ a b, a ∈ xs → R a b → a = b) → xs = zs := by
  intro xs zs h
  induction h with
  | nil => intro _; rfl
  | cons ha hl ih =>
    intro heq
    rw [heq _ _ (List.mem_cons_self _ _) ha,
        ih (fun a b hm hr => heq a b (List.mem_cons_of_mem _ hm) hr)]

theorem permRel_to_perm {α : Type} {R : α → α → Prop} {xs ys : List α}
    (h : PermRel R xs ys) (heq : ∀ a b, a ∈ xs → R a b → a = b) : xs.Perm ys := by
  obtain ⟨zs, hf, hp⟩ := h
  rw [forall₂_eq_of hf heq]
  exact hp

theorem sameCond_eq {c c' : Condition}
    (hm : ∀ av ∈ c.attributeValueList, mapFree av = true)
    (h : SameCond c c') : c = c' := by
  obtain ⟨hop, hvals⟩ := h
  obtain ⟨op, vals⟩ := c
  obtain ⟨op', vals'⟩ := c'
  simp only at hop hvals hm
  simp only [Condition.mk.injEq]
  exact ⟨hop, forall₂_eq_of hvals (fun a b hmem hr => sameAV_eq (hm a hmem) hr)⟩

theorem alookup_mem {α : Type} {k : String} {v : α} :
    ∀ {l : List (String × α)}, alookup k l = some v → (k, v) ∈ l
  | [], h => by simp [alookup] at h
  | (k0, v0) :: rest, h => by
      simp only [alookup] at h
      split at h
      · rename_i hk
        simp only [Option.some.injEq] at h
        rw [← hk, ← h]
        exact List.mem_cons_self _ _
      · exact List.mem_cons_of_mem _ (alookup_mem h)

theorem alookup_eq_some_of_mem_nodup {α : Type} {k : String} {v : α} :
    ∀ {l : List (String × α)}, (l.map Prod.fst).Nodup → (k, v) ∈ l →
      alookup k l = some v
  | [], _, hm => absurd hm (List.not_mem_nil _)
  | (k0, v0) :: rest, hn, hm => by
      simp only [List.map_cons, List.nodup_cons] at hn
      simp only [alookup]
      rcases List.mem_cons.mp hm with h | h
      · simp only [Prod.mk.injEq] at h
        rw [if_pos h.1.symm]
        rw [h.2]
      · have hk : k0 ≠ k := by
          intro hk
          exact hn.1 (hk ▸ (List.mem_map.mpr ⟨(k, v), h, rfl⟩))
        rw [if_neg hk]
        exact alookup_eq_some_of_mem_nodup hn.2 h

theorem alookup_perm {α : Type} {l l' : List (String × α)}
    (hp : l.Perm l') (hn : (l.map Prod.fst).Nodup) (k : String) :
    alookup k l' = alookup k l := by
  have hn' : (l'.map Prod.fst).Nodup := ((hp.map Prod.fst).nodup_iff).mp hn
  cases hv : alookup k l with
  | some v =>
    exact alookup_eq_some_of_mem_nodup hn' (hp.mem_iff.mp (alookup_mem hv))
  | none =>
    cases hv' : alookup k l' with
    | none => rfl
    | some v =>
      have hm : (k, v) ∈ l := hp.mem_iff.mpr (alookup_mem hv')
      rw [alookup_eq_some_of_mem_nodup hn hm] at hv
      exact absurd hv (by simp)

theorem queryKey_det {p q : QueryInput} {schema : KeySchema}
    (hs : SameQuery p q)
    (hf : p.filterExpression = none)
    (hmc : ∀ e ∈ p.keyConditions, ∀ av ∈ e.2.attributeValueList, mapFree av = true)
    (hme : ∀ e ∈ p.exclusiveStartKey, mapFree e.2 = true)
    (hnc : (p.keyConditions.map Prod.fst).Nodup)
    (hne : (p.exclusiveStartKey.map Prod.fst).Nodup) :
    queryKey q schema = queryKey p schema := by
  obtain ⟨ht, hi, hsel, hsif, hpkc, hpesk, hfe, hnames, hvals, hlim⟩ := hs
  have hkc : p.keyConditions.Perm q.keyConditions :=
    permRel_to_perm hpkc (fun a b hm hr => by
      obtain ⟨h1, h2⟩ := hr
      obtain ⟨ka, ca⟩ := a
      obtain ⟨kb, cb⟩ := b
      simp only at h1 h2
      simp only [Prod.mk.injEq]
      exact ⟨h1, sameCond_eq (hmc _ hm) h2⟩)
  have hesk : p.exclusiveStartKey.Perm q.exclusiveStartKey :=
    permRel_to_perm hpesk (fun a b hm hr => by
      obtain ⟨h1, h2⟩ := hr
      obtain ⟨ka, va⟩ := a
      obtain ⟨kb, vb⟩ := b
      simp only at h1 h2
      simp only [Prod.mk.injEq]
      exact ⟨h1, sameAV_eq (hme _ hm) h2⟩)
  have halc := alookup_perm hkc hnc
  have hale := alookup_perm hesk hne
  have hlkc : q.keyConditions.length = p.keyConditions.length := hkc.length_eq.symm
  have hlesk : q.exclusiveStartKey.length = p.exclusiveStartKey.length :=
    hesk.length_eq.symm
  have hqf : q.filterExpression = none := hfe ▸ hf
  simp only [queryKey, writeItemKey, halc, hale, hlkc, hlesk, hqf, hf,
    ← ht, ← hi, ← hsel, ← hsif, ← hlim]

theorem scanKey_det {p q : ScanInput} {schema : KeySchema}
    (hs : SameScan p q)
    (hf : p.filterExpression = none)
    (hme : ∀ e ∈ p.exclusiveStartKey, mapFree e.2 = true)
    (hne : (p.exclusiveStartKey.map Prod.fst).Nodup) :
    scanKey q schema = scanKey p schema := by
  obtain ⟨ht, hi, hsel, hpesk, hfe, hnames, hvals, hlim⟩ := hs
  have hesk : p.exclusiveStartKey.Perm q.exclusiveStartKey :=
    permRel_to_perm hpesk (fun a b hm hr => by
      obtain ⟨h1, h2⟩ := hr
      obtain ⟨ka, va⟩ := a
      obtain ⟨kb, vb⟩ := b
      simp only at h1 h2
      simp only [Prod.mk.injEq]
      exact ⟨h1, sameAV_eq (hme _ hm) h2⟩)
  have hale := alookup_perm hesk hne
  have hlesk : q.exclusiveStartKey.length = p.exclusiveStartKey.length :=
    hesk.length_eq.symm
  have hqf : q.filterExpression = none := hfe ▸ hf
  simp only [scanKey, writeItemKey, hale, hlesk, hqf, hf, ← ht, ← hi, ← hsel, ← hlim]

/-- C5 (counterexample) — the claim states encoding the same attribute
value twice yields byte-identical tokens.  A map value's entries are
iterated in Go map iteration order, which is not deterministic: the two
orders of one two-entry map (`SameAV`-related trees, i.e. the same Go
value) encode to different tokens (`writeAV`'s `M` case, key-encoding
file lines 165–172, concatenates in iteration order without sorting). -/
theorem map_iteration_breaks_determinism :
    SameAV (AV.M [("a", .S "x"), ("b", .S "y")]) (AV.M [("b", .S "y"), ("a", .S "x")])
    ∧ writeAV (AV.M [("a", .S "x"), ("b", .S "y")]) = Pan.ok "M:a=x,b=y,"
    ∧ writeAV (AV.M [("b", .S "y"), ("a", .S "x")]) = Pan.ok "M:b=y,a=x,"
    ∧ writeAV (AV.M [("a", .S "x"), ("b", .S "y")])
        ≠ writeAV (AV.M [("b", .S "y"), ("a", .S "x")]) := by
  refine ⟨?_, rfl, rfl, by decide⟩
  exact SameAV.m
    (SameAVPairs.cons (SameAV.s "x") (SameAVPairs.cons (SameAV.s "y") SameAVPairs.nil))
    (List.Perm.swap ("b", AV.S "y") ("a", AV.S "x") [])

/-- C5 (amended) — determinism as the code provides it: encoding two
trees denoting the same Go value yields byte-identical tokens whenever
the value contains no map, and two query (or scan) requests denoting
the same Go request yield byte-identical request keys whenever their
embedded attribute values are map-free, their association lists have
distinct keys, and they carry no filter expression (the filter path
builds a `strings.Replacer` from map iteration, which is likewise
order-sensitive). -/
theorem encoding_determinism_mapfree :
    (∀ a b : AV, mapFree a = true → SameAV a b → writeAV a = writeAV b)
    ∧
    (∀ (p q : QueryInput) (schema : KeySchema),
      SameQuery p q → p.filterExpression = none →
      (∀ e ∈ p.keyConditions, ∀ av ∈ e.2.attributeValueList, mapFree av = true) →
      (∀ e ∈ p.exclusiveStartKey, mapFree e.2 = true) →
      (p.keyConditions.map Prod.fst).Nodup →
      (p.exclusiveStartKey.map Prod.fst).Nodup →
      queryKey q schema = queryKey p schema)
    ∧
    (∀ (p q : ScanInput) (schema : KeySchema),
      SameScan p q → p.filterExpression = none →
      (∀ e ∈ p.exclusiveStartKey, mapFree e.2 = true) →
      (p.exclusiveStartKey.map Prod.fst).Nodup →
      scanKey q schema = scanKey p schema) := by
  refine ⟨?_, ?_, ?_⟩
  · intro a b hm hs
    rw [sameAV_eq hm hs]
  · intro p q schema hs hf hmc hme hnc hne
    exact queryKey_det hs hf hmc hme hnc hne
  · intro p q schema hs hf hme hne
    exact scanKey_det hs hf hme hne

/-- Concrete runs of the amended determinism statement: a map-free
list value, and a query and a scan whose continuation-cursor maps are
observed in the two possible iteration orders. -/
theorem encoding_determinism_mapfree_witness :
    writeAV (AV.L [.S "x"]) = writeAV (AV.L [.S "x"])
    ∧ queryKey
        ⟨"tbl", none, none, none, [("id", ⟨"EQ", [.S "A"]⟩)],
         [("rk", .S "1"), ("id", .S "A")], none, [], [], none⟩
        (⟨"id", some "rk"⟩ : KeySchema)
      = queryKey
        ⟨"tbl", none, none, none, [("id", ⟨"EQ", [.S "A"]⟩)],
         [("id", .S "A"), ("rk", .S "1")], none, [], [], none⟩
        (⟨"id", some "rk"⟩ : KeySchema)
    ∧ scanKey
        ⟨"tbl", none, none, [("rk", .S "1"), ("id", .S "A")], none, [], [], none⟩
        (⟨"id", some "rk"⟩ : KeySchema)
      = scanKey
        ⟨"tbl", none, none, [("id", .S "A"), ("rk", .S "1")], none, [], [], none⟩
        (⟨"id", some "rk"⟩ : KeySchema) := by
  refine ⟨?_, ?_, ?_⟩
  · exact encoding_determinism_mapfree.1 (AV.L [.S "x"]) (AV.L [.S "x"]) (by decide)
      (SameAV.l (SameAVList.cons (SameAV.s "x") SameAVList.nil))
  · exact encoding_determinism_mapfree.2.1
      ⟨"tbl", none, none, none, [("id", ⟨"EQ", [.S "A"]⟩)],
       [("id", .S "A"), ("rk", .S "1")], none, [], [], none⟩
      ⟨"tbl", none, none, none, [("id", ⟨"EQ", [.S "A"]⟩)],
       [("rk", .S "1"), ("id", .S "A")], none, [], [], none⟩
      (⟨"id", some "rk"⟩ : KeySchema)
      ⟨rfl, rfl, rfl, rfl,
       ⟨[("id", ⟨"EQ", [.S "A"]⟩)],
        List.Forall₂.cons ⟨rfl, rfl, List.Forall₂.cons (SameAV.s "A") List.Forall₂.nil⟩
          List.Forall₂.nil,
        List.Perm.refl _⟩,
       ⟨[("id", .S "A"), ("rk", .S "1")],
        List.Forall₂.cons ⟨rfl, SameAV.s "A"⟩
          (List.Forall₂.cons ⟨rfl, SameAV.s "1"⟩ List.Forall₂.nil),
        List.Perm.swap ("rk", AV.S "1") ("id", AV.S "A") []⟩,
       rfl, ⟨[], List.Forall₂.nil, List.Perm.refl _⟩,
       ⟨[], List.Forall₂.nil, List.Perm.refl _⟩, rfl⟩
      rfl (by decide) (by decide) (by decide) (by decide)
  · exact encoding_determinism_mapfree.2.2
      ⟨"tbl", none, none, [("id", .S "A"), ("rk", .S "1")], none, [], [], none⟩
      ⟨"tbl", none, none, [("rk", .S "1"), ("id", .S "A")], none, [], [], none⟩
      (⟨"id", some "rk"⟩ : KeySchema)
      ⟨rfl, rfl, rfl,
       ⟨[("id", .S "A"), ("rk", .S "1")],
        List.Forall₂.cons ⟨rfl, SameAV.s "A"⟩
          (List.Forall₂.cons ⟨rfl, SameAV.s "1"⟩ List.Forall₂.nil),
        List.Perm.swap ("rk", AV.S "1") ("id", AV.S "A") []⟩,
       rfl, ⟨[], List.Forall₂.nil, List.Perm.refl _⟩,
       ⟨[], List.Forall₂.nil, List.Perm.refl _⟩, rfl⟩
      rfl (by decide) (by decide)

/-- C8 (amended) — error atomicity as the code actually provides it:
when an operation's main remote data call fails, any error the
operation returns is one of its remote calls' errors propagated
unchanged (the data call's, the prefetch read's, or a metadata
fetch's), the item cache is exactly as before, and the query and scan
caches have only lost entries (the pre-write prefetch purges are not
rolled back); the schema cache may have memoized fetched descriptions.
Stated for all nine operations. -/
theorem error_atomicity :
    (∀ (c : CacheState) (d : String → Except String TableDesc) (i : GetItemInput)
       (e e' : String) (s : CacheState) (b : Bool),
      getItemOp c d i (.error e) = .err e' s b →
      dOnly c s ∧ (e' = e ∨ ∃ t, d t = .error e'))
    ∧
    (∀ (c : CacheState) (d : String → Except String TableDesc) (i : PutItemInput)
       (e e' : String) (s : CacheState) (b : Bool),
      putItemOp c d i (.error e) = .err e' s b →
      dOnly c s ∧ (e' = e ∨ ∃ t, d t = .error e'))
    ∧
    (∀ (c : CacheState) (d : String → Except String TableDesc) (i : DeleteItemInput)
       (e e' : String) (s : CacheState) (b : Bool),
      deleteItemOp c d i (.error e) = .err e' s b →
      dOnly c s ∧ (e' = e ∨ ∃ t, d t = .error e'))
    ∧
    (∀ (c : CacheState) (d : String → Except String TableDesc) (i : UpdateItemInput)
       (pref : Except String (List (String × Item)))
       (e e' : String) (s : CacheState) (b : Bool),
      updateItemOp c d i pref (.error e) = .err e' s b →
      dOnly c s ∧ (e' = e ∨ pref = .error e' ∨ ∃ t, d t = .error e'))
    ∧
    (∀ (c : CacheState) (d : String → Except String TableDesc) (i : BatchGetInput)
       (e e' : String) (s : CacheState) (b : Bool),
      batchGetOp c d i (.error e) = .err e' s b →
      dOnly c s ∧ (e' = e ∨ ∃ t, d t = .error e'))
    ∧
    (∀ (c : CacheState) (d : String → Except String TableDesc)
       (input : List (String × List WriteReq))
       (pref : Except String (List (String × Item)))
       (e e' : String) (s : CacheState) (b : Bool),
      batchWriteOp c d input pref (.error e) = .err e' s b →
      dOnly c s ∧ (e' = e ∨ pref = .error e' ∨ ∃ t, d t = .error e'))
    ∧
    (∀ (c : CacheState) (d : String → Except String TableDesc)
       (input : List TransactItem)
       (pref : Except String (List (String × Item)))
       (e e' : String) (s : CacheState) (b : Bool),
      transactWriteOp c d input pref (.error e) = .err e' s b →
      dOnly c s ∧ (e' = e ∨ pref = .error e' ∨ ∃ t, d t = .error e'))
    ∧
    (∀ (c : CacheState) (d : String → Except String TableDesc) (i : QueryInput)
       (e e' : String) (s : CacheState) (b : Bool),
      queryOp c d i (.error e) = .err e' s b →
      dOnly c s ∧ (e' = e ∨ ∃ t, d t = .error e'))
    ∧
    (∀ (c : CacheState) (d : String → Except String TableDesc) (i : ScanInput)
       (e e' : String) (s : CacheState) (b : Bool),
      scanOp c d i (.error e) = .err e' s b →
      dOnly c s ∧ (e' = e ∨ ∃ t, d t = .error e')) := by
  refine ⟨?_, ?_, ?_, ?_, ?_, ?_, ?_, ?_, ?_⟩
  · intro c d i e e' s b h
    unfold getItemOp at h
    split at h
    · simp only [OpOut.err.injEq] at h
      exact ⟨h.2.1 ▸ dOnly_refl c, .inl h.1.symm⟩
    · split at h
      · rename_i e2 heq
        simp only [OpOut.err.injEq] at h
        exact ⟨h.2.1 ▸ dOnly_refl c, .inr ⟨i.tableName, h.1 ▸ schemaOf_error_source heq⟩⟩
      · rename_i schema c1 heq
        split at h
        · exact absurd h (by simp)
        · split at h
          · exact absurd h (by simp)
          · exact absurd h (by simp)
          · simp only [OpOut.err.injEq] at h
            exact ⟨h.2.1 ▸ sameData_dOnly (schemaOf_ok_sameData heq), .inl h.1.symm⟩
  · intro c d i e e' s b h
    unfold putItemOp at h
    split at h
    · simp only [OpOut.err.injEq] at h
      exact ⟨h.2.1 ▸ dOnly_refl c, .inl h.1.symm⟩
    · split at h
      · rename_i e2 heq
        simp only [OpOut.err.injEq] at h
        exact ⟨h.2.1 ▸ dOnly_refl c, .inr ⟨i.tableName, h.1 ▸ schemaOf_error_source heq⟩⟩
      · rename_i schema c1 heq
        split at h
        · exact absurd h (by simp)
        · simp only [OpOut.err.injEq] at h
          exact ⟨h.2.1 ▸ sameData_dOnly (schemaOf_ok_sameData heq), .inl h.1.symm⟩
  · intro c d i e e' s b h
    unfold deleteItemOp at h
    split at h
    · simp only [OpOut.err.injEq] at h
      exact ⟨h.2.1 ▸ dOnly_refl c, .inl h.1.symm⟩
    · split at h
      · rename_i e2 heq
        simp only [OpOut.err.injEq] at h
        exact ⟨h.2.1 ▸ dOnly_refl c, .inr ⟨i.tableName, h.1 ▸ schemaOf_error_source heq⟩⟩
      · rename_i schema c1 heq
        simp only [OpOut.err.injEq] at h
        exact ⟨h.2.1 ▸ sameData_dOnly (schemaOf_ok_sameData heq), .inl h.1.symm⟩
  · intro c d i pref e e' s b h
    unfold updateItemOp at h
    split at h
    · simp only [OpOut.err.injEq] at h
      exact ⟨h.2.1 ▸ dOnly_refl c, .inl h.1.symm⟩
    · split at h
      · rename_i e2 heq
        simp only [OpOut.err.injEq] at h
        exact ⟨h.2.1 ▸ dOnly_refl c,
          .inr (.inr ⟨i.tableName, h.1 ▸ schemaOf_error_source heq⟩)⟩
      · rename_i schema c1 heq
        have hsd := sameData_dOnly (schemaOf_ok_sameData heq)
        split at h
        · rename_i e2 heq2
          simp only [OpOut.err.injEq] at h
          split at heq2
          · exact ⟨h.2.1 ▸ hsd, .inr (.inl (h.1 ▸ prefetchRun_err_source heq2))⟩
          · exact absurd heq2 (by simp)
        · exact absurd h (by simp)
        · rename_i c2 heq2
          have hd2 : dOnly c1 c2 := by
            split at heq2
            · exact prefetchRun_ok_dOnly heq2
            · simp only [Step.ok.injEq] at heq2
              exact heq2 ▸ dOnly_refl c1
          simp only [OpOut.err.injEq] at h
          exact ⟨h.2.1 ▸ dOnly_trans hsd hd2, .inl h.1.symm⟩
  · intro c d i e e' s b h
    unfold batchGetOp at h
    split at h
    · rename_i e2 heq
      simp only [OpOut.err.injEq] at h
      obtain ⟨t, ht⟩ := batchGetPhase1_err_source heq
      exact ⟨h.2.1 ▸ dOnly_refl c, .inr ⟨t, h.1 ▸ ht⟩⟩
    · exact absurd h (by simp)
    · rename_i fake newReq c1 heq
      split at h
      · exact absurd h (by simp)
      · simp only [OpOut.err.injEq] at h
        exact ⟨h.2.1 ▸ sameData_dOnly (batchGetPhase1_ok_sameData heq), .inl h.1.symm⟩
  · intro c d input pref e e' s b h
    unfold batchWriteOp at h
    split at h
    · rename_i e2 heq
      simp only [OpOut.err.injEq] at h
      exact ⟨h.2.1 ▸ dOnly_refl c, .inr (.inl (h.1 ▸ prefetchRun_err_source heq))⟩
    · exact absurd h (by simp)
    · rename_i c1 heq
      simp only [OpOut.err.injEq] at h
      exact ⟨h.2.1 ▸ prefetchRun_ok_dOnly heq, .inl h.1.symm⟩
  · intro c d input pref e e' s b h
    unfold transactWriteOp at h
    split at h
    · rename_i e2 heq
      simp only [OpOut.err.injEq] at h
      exact ⟨h.2.1 ▸ dOnly_refl c, .inr (.inl (h.1 ▸ prefetchRun_err_source heq))⟩
    · exact absurd h (by simp)
    · rename_i c1 heq
      simp only [OpOut.err.injEq] at h
      exact ⟨h.2.1 ▸ prefetchRun_ok_dOnly heq, .inl h.1.symm⟩
  · intro c d i e e' s b h
    unfold queryOp at h
    split at h
    · simp only [OpOut.err.injEq] at h
      exact ⟨h.2.1 ▸ dOnly_refl c, .inl h.1.symm⟩
    · cases hidx : i.indexName with
      | none =>
        simp only [hidx] at h
        cases hso : schemaOf c d i.tableName with
        | error e2 =>
          simp only [hso] at h
          simp only [OpOut.err.injEq] at h
          exact ⟨h.2.1 ▸ dOnly_refl c, .inr ⟨i.tableName, h.1 ▸ schemaOf_error_source hso⟩⟩
        | ok p =>
          obtain ⟨schema, c1⟩ := p
          simp only [hso] at h
          have hsd := sameData_dOnly (schemaOf_ok_sameData hso)
          split at h
          · exact absurd h (by simp)
          · split at h
            · exact absurd h (by simp)
            · split at h
              · exact absurd h (by simp)
              · simp only [OpOut.err.injEq] at h
                exact ⟨h.2.1 ▸ hsd, .inl h.1.symm⟩
      | some idx0 =>
        simp only [hidx] at h
        cases hso : schemaOfIndex c d i.tableName idx0 with
        | err e2 =>
          simp only [hso] at h
          simp only [OpOut.err.injEq] at h
          exact ⟨h.2.1 ▸ dOnly_refl c,
            .inr ⟨i.tableName, h.1 ▸ schemaOfIndex_err_source hso⟩⟩
        | panicked m =>
          simp only [hso] at h
          exact absurd h (by simp)
        | ok p =>
          obtain ⟨schema, c1⟩ := p
          simp only [hso] at h
          have hsd := sameData_dOnly (schemaOfIndex_ok_sameData hso)
          split at h
          · exact absurd h (by simp)
          · split at h
            · exact absurd h (by simp)
            · split at h
              · exact absurd h (by simp)
              · simp only [OpOut.err.injEq] at h
                exact ⟨h.2.1 ▸ hsd, .inl h.1.symm⟩
  · intro c d i e e' s b h
    unfold scanOp at h
    split at h
    · simp only [OpOut.err.injEq] at h
      exact ⟨h.2.1 ▸ dOnly_refl c, .inl h.1.symm⟩
    · split at h
      · rename_i e2 heq
        simp only [OpOut.err.injEq] at h
        exact ⟨h.2.1 ▸ dOnly_refl c, .inr ⟨i.tableName, h.1 ▸ schemaOf_error_source heq⟩⟩
      · rename_i schema c1 heq
        split at h
        · exact absurd h (by simp)
        · split at h
          · exact absurd h (by simp)
          · simp only [OpOut.err.injEq] at h
            exact ⟨h.2.1 ▸ sameData_dOnly (schemaOf_ok_sameData heq), .inl h.1.symm⟩

/-- Concrete run of the amended error-atomicity statement: the failed
`ALL_OLD` update of the counterexample satisfies the amended
guarantees — error propagated, item cache unchanged, query/scan caches
only shrunk. -/
theorem error_atomicity_witness :
    dOnly c8State c8Mid
    ∧ ("boom" = "boom" ∨ Except.ok [("tbl", [("id", AV.S "a")])] = Except.error "boom"
        ∨ ∃ t, noDescribe t = .error "boom") := by
  exact error_atomicity.2.2.2.1 c8State noDescribe
    ⟨"tbl", [("id", .S "a")], some "ALL_OLD"⟩
    (.ok [("tbl", [("id", .S "a")])]) "boom" "boom" c8Mid true rfl

/-- Concrete agreement of the stored and purged group keys for a
two-attribute base table, a GSI, and an LSI. -/
theorem group_key_agreement_witness :
    queryTkey ⟨"tbl", none, none, none, [("id", ⟨"EQ", [.S "A"]⟩)], [], none, [], [], none⟩
        (⟨"id", some "rk"⟩ : KeySchema) ""
      = invalidateBaseKey "tbl" c2TableDesc [("id", .S "A"), ("g", .S "G1")]
    ∧ gsiPurgeKey "tbl" [("id", .S "A"), ("g", .S "G1")] ⟨"idx", ⟨"g", some "r"⟩⟩
      = some (queryTkey
          ⟨"tbl", some "idx", none, none, [("g", ⟨"EQ", [.S "G1"]⟩)], [], none, [], [], none⟩
          (⟨"g", some "r"⟩ : KeySchema) "idx")
    ∧ lsiPurgeKey "tbl" [("id", .S "A"), ("g", .S "G1")] ⟨"lidx", ⟨"id", some "s"⟩⟩
      = some (queryTkey
          ⟨"tbl", some "lidx", none, none, [("id", ⟨"EQ", [.S "A"]⟩)], [], none, [], [], none⟩
          (⟨"id", some "s"⟩ : KeySchema) "lidx") := by
  refine ⟨?_, ?_, ?_⟩
  · exact group_key_agreement.1 "tbl" c2TableDesc [("id", .S "A"), ("g", .S "G1")]
      (.S "A") ⟨"EQ", [.S "A"]⟩ _ "rk" [] rfl rfl rfl rfl rfl
  · exact group_key_agreement.2.1 "tbl" ⟨"idx", ⟨"g", some "r"⟩⟩
      [("id", .S "A"), ("g", .S "G1")] (.S "G1") ⟨"EQ", [.S "G1"]⟩ _ "r" [] rfl rfl rfl rfl rfl
  · exact group_key_agreement.2.2 "tbl" ⟨"lidx", ⟨"id", some "s"⟩⟩
      [("id", .S "A"), ("g", .S "G1")] (.S "A") ⟨"EQ", [.S "A"]⟩ _ "s" [] rfl rfl rfl rfl rfl

end Localcache
